import Mathlib

/-!
Shallow embedding of the image-transform engine of the Artsify repository
(src/ditherconverter.rs, src/fisheyeconverter.rs, src/crtconverter.rs,
src/asciiconverter.rs) and proofs about it.

Modelling conventions:
* `u8`/`u32`/`i32` values are `ℕ`/`ℤ` with explicit wrapping or saturation
  where the source relies on it.
* `f32` arithmetic is modelled by exact rational arithmetic `ℚ`.  The Rust
  casts `as u8` / `as u32` / `as i32` / `as usize` (truncation toward zero,
  saturating at the type bounds) are modelled by `toU8` / `toU32` /
  `truncQ` / `toUsize`.  `f32::round` (half away from zero) is `rustRound`.
* `RgbaImage` is a structure carrying width, height and a total pixel
  function; `put_pixel` is functional update; buffers start zeroed as in
  `RgbaImage::new`.
* the `image` crate's `to_luma8` (an external dependency of the repository)
  is modelled by the crate's integer BT.709 formula
  `(2126 r + 7152 g + 722 b) / 10000`.
* `f32::sqrt` and `f32::powf` (external, irrational-valued) are abstract
  function parameters of the definitions that use them.
-/

/-- One RGBA pixel, channels as natural numbers (valid pixels are ≤ 255). -/
structure Pix where
  r : ℕ
  g : ℕ
  b : ℕ
  a : ℕ
deriving DecidableEq, Repr

/-- An RGBA image: dimensions plus a total pixel function (out-of-range
coordinates are never read by the embedded code paths we prove about). -/
structure Img where
  width : ℕ
  height : ℕ
  pix : ℕ → ℕ → Pix

/-- All channels of a pixel are in the `u8` range. -/
def validPix (p : Pix) : Prop :=
  p.r ≤ 255 ∧ p.g ≤ 255 ∧ p.b ≤ 255 ∧ p.a ≤ 255

instance (p : Pix) : Decidable (validPix p) := by
  unfold validPix; infer_instance

/-- `RgbaImage::new`: a zero-initialised buffer. -/
def rgbaNew (w h : ℕ) : Img := ⟨w, h, fun _ _ => ⟨0, 0, 0, 0⟩⟩

/-- `put_pixel`: functional update of one coordinate. -/
def Img.putPixel (im : Img) (x y : ℕ) (p : Pix) : Img :=
  ⟨im.width, im.height, fun u v => if u = x ∧ v = y then p else im.pix u v⟩

/-- Row-major enumeration of all pixel coordinates, matching the nested
`for y in 0..height { for x in 0..width }` loops. -/
def rowMajor (w h : ℕ) : List (ℕ × ℕ) :=
  ((List.range h).map (fun y => (List.range w).map (fun x => (x, y)))).flatten

/-- Truncation toward zero of a rational, as the Rust `as i32` float cast. -/
def truncQ (q : ℚ) : ℤ :=
  if 0 ≤ q then ⌊q⌋ else -⌊-q⌋

/-- `f32::round`: round half away from zero. -/
def rustRound (q : ℚ) : ℤ :=
  if 0 ≤ q then ⌊q + 1/2⌋ else -⌊-q + 1/2⌋

/-- The Rust saturating-truncating cast `f32 as u8`. -/
def toU8 (q : ℚ) : ℕ :=
  min 255 (truncQ (max 0 q)).toNat

/-- The Rust saturating-truncating cast `f32 as u32`/`as usize`
(the upper saturation bound is never reached in the embedded code). -/
def toU32 (q : ℚ) : ℕ :=
  (truncQ (max 0 q)).toNat

/-- Clamp on rationals, as `f32::clamp`. -/
def qclamp (q lo hi : ℚ) : ℚ := max lo (min hi q)

/-- The `image` crate's `to_luma8` per-pixel formula (integer BT.709). -/
def toLuma (p : Pix) : ℕ :=
  (2126 * p.r + 7152 * p.g + 722 * p.b) / 10000

/-- `DynamicImage::to_luma8`: a gray image whose channel 0 is the luma. -/
def to_luma8 (image : Img) : Img :=
  ⟨image.width, image.height, fun x y =>
    let l := toLuma (image.pix x y)
    ⟨l, l, l, 255⟩⟩

/-! ## DitherEngine (src/ditherconverter.rs) -/

inductive DitherAlgorithm where
  | FloydSteinberg
  | Atkinson
  | Ordered
  | Threshold
  | Scanline
  | Pattern
  | Random
  | Halftone
  | Jarvis
  | Stucki
  | Burkes
  | Sierra
deriving DecidableEq, Repr

structure DitherSettings where
  algorithm : DitherAlgorithm
  color_levels : ℕ
  threshold : ℚ
  black_point : ℚ
  white_point : ℚ
  custom_black : ℕ × ℕ × ℕ
  custom_white : ℕ × ℕ × ℕ
deriving DecidableEq, Repr

/-- `DitherSettings::default()`. -/
def ditherDefault : DitherSettings :=
  { algorithm := .FloydSteinberg
    color_levels := 2
    threshold := 128
    black_point := 0
    white_point := 255
    custom_black := (0, 0, 0)
    custom_white := (255, 255, 255) }

/-- `quantize_gray(value, levels)`.  The `u8` subtraction `levels - 1` wraps
(release semantics), modelled by `(levels + 255) % 256`; the `f32` division
`255.0 / 0.0 = +∞` and the subsequent `0 * ∞ = NaN`, `NaN as u8 = 0` chain
for `levels = 1` collapses, in the rational model, to division by zero
(`255 / 0 = 0` in `ℚ`) and yields the same result `0`. -/
def quantize_gray (value levels : ℕ) : ℕ :=
  let d : ℕ := (levels + 255) % 256
  let step : ℚ := 255 / (d : ℚ)
  let quantized : ℕ := toU8 ((rustRound ((value : ℚ) / step) : ℚ) * step)
  min quantized 255

/-- `distribute_error_gray(img, x, y, err, factor)`: clamped in-bounds
neighbour update, out-of-bounds writes silently skipped.  The product
`err as f32 * factor` followed by `as i32` is exact truncation toward zero
of the rational product. -/
def distribute_error_gray (im : Img) (x y : ℤ) (err : ℤ) (factor : ℚ) : Img :=
  if 0 ≤ x ∧ x < (im.width : ℤ) ∧ 0 ≤ y ∧ y < (im.height : ℤ) then
    let old := (im.pix x.toNat y.toNat).r
    let new_gray := (max 0 (min 255 ((old : ℤ) + truncQ ((err : ℚ) * factor)))).toNat
    im.putPixel x.toNat y.toNat ⟨new_gray, new_gray, new_gray, 255⟩
  else
    im

/-- The shared body of one error-diffusion pixel step: quantize, write in
place, return the updated image together with the quantization error. -/
def diffusePixel (im : Img) (p : ℕ × ℕ) (levels : ℕ) : Img × ℤ :=
  let old_gray := (im.pix p.1 p.2).r
  let new_gray := quantize_gray old_gray levels
  let im := im.putPixel p.1 p.2 ⟨new_gray, new_gray, new_gray, 255⟩
  (im, (old_gray : ℤ) - (new_gray : ℤ))

/-- `floyd_steinberg_dither`. -/
def floyd_steinberg_dither (img : Img) (settings : DitherSettings) : Img :=
  (rowMajor img.width img.height).foldl (fun im p =>
    let step := diffusePixel im p settings.color_levels
    let im := step.1
    let err := step.2
    let im := distribute_error_gray im ((p.1 : ℤ) + 1) (p.2 : ℤ) err (7/16)
    let im := distribute_error_gray im ((p.1 : ℤ) - 1) ((p.2 : ℤ) + 1) err (3/16)
    let im := distribute_error_gray im (p.1 : ℤ) ((p.2 : ℤ) + 1) err (5/16)
    distribute_error_gray im ((p.1 : ℤ) + 1) ((p.2 : ℤ) + 1) err (1/16)) img

/-- `atkinson_dither` (six neighbours, factor 1/8 each). -/
def atkinson_dither (img : Img) (settings : DitherSettings) : Img :=
  (rowMajor img.width img.height).foldl (fun im p =>
    let step := diffusePixel im p settings.color_levels
    let im := step.1
    let err := step.2
    let factor : ℚ := 1/8
    let im := distribute_error_gray im ((p.1 : ℤ) + 1) (p.2 : ℤ) err factor
    let im := distribute_error_gray im ((p.1 : ℤ) + 2) (p.2 : ℤ) err factor
    let im := distribute_error_gray im ((p.1 : ℤ) - 1) ((p.2 : ℤ) + 1) err factor
    let im := distribute_error_gray im (p.1 : ℤ) ((p.2 : ℤ) + 1) err factor
    let im := distribute_error_gray im ((p.1 : ℤ) + 1) ((p.2 : ℤ) + 1) err factor
    distribute_error_gray im (p.1 : ℤ) ((p.2 : ℤ) + 2) err factor) img

/-- `jarvis_dither` (Jarvis-Judice-Ninke, denominator 48). -/
def jarvis_dither (img : Img) (settings : DitherSettings) : Img :=
  (rowMajor img.width img.height).foldl (fun im p =>
    let step := diffusePixel im p settings.color_levels
    let im := step.1
    let err := step.2
    let factor : ℚ := 1/48
    let im := distribute_error_gray im ((p.1 : ℤ) + 1) (p.2 : ℤ) err (7 * factor)
    let im := distribute_error_gray im ((p.1 : ℤ) + 2) (p.2 : ℤ) err (5 * factor)
    let im := distribute_error_gray im ((p.1 : ℤ) - 2) ((p.2 : ℤ) + 1) err (3 * factor)
    let im := distribute_error_gray im ((p.1 : ℤ) - 1) ((p.2 : ℤ) + 1) err (5 * factor)
    let im := distribute_error_gray im (p.1 : ℤ) ((p.2 : ℤ) + 1) err (7 * factor)
    let im := distribute_error_gray im ((p.1 : ℤ) + 1) ((p.2 : ℤ) + 1) err (5 * factor)
    let im := distribute_error_gray im ((p.1 : ℤ) + 2) ((p.2 : ℤ) + 1) err (3 * factor)
    let im := distribute_error_gray im ((p.1 : ℤ) - 2) ((p.2 : ℤ) + 2) err (1 * factor)
    let im := distribute_error_gray im ((p.1 : ℤ) - 1) ((p.2 : ℤ) + 2) err (3 * factor)
    let im := distribute_error_gray im (p.1 : ℤ) ((p.2 : ℤ) + 2) err (5 * factor)
    let im := distribute_error_gray im ((p.1 : ℤ) + 1) ((p.2 : ℤ) + 2) err (3 * factor)
    distribute_error_gray im ((p.1 : ℤ) + 2) ((p.2 : ℤ) + 2) err (1 * factor)) img

/-- `stucki_dither` (denominator 42). -/
def stucki_dither (img : Img) (settings : DitherSettings) : Img :=
  (rowMajor img.width img.height).foldl (fun im p =>
    let step := diffusePixel im p settings.color_levels
    let im := step.1
    let err := step.2
    let factor : ℚ := 1/42
    let im := distribute_error_gray im ((p.1 : ℤ) + 1) (p.2 : ℤ) err (8 * factor)
    let im := distribute_error_gray im ((p.1 : ℤ) + 2) (p.2 : ℤ) err (4 * factor)
    let im := distribute_error_gray im ((p.1 : ℤ) - 2) ((p.2 : ℤ) + 1) err (2 * factor)
    let im := distribute_error_gray im ((p.1 : ℤ) - 1) ((p.2 : ℤ) + 1) err (4 * factor)
    let im := distribute_error_gray im (p.1 : ℤ) ((p.2 : ℤ) + 1) err (8 * factor)
    let im := distribute_error_gray im ((p.1 : ℤ) + 1) ((p.2 : ℤ) + 1) err (4 * factor)
    let im := distribute_error_gray im ((p.1 : ℤ) + 2) ((p.2 : ℤ) + 1) err (2 * factor)
    let im := distribute_error_gray im ((p.1 : ℤ) - 2) ((p.2 : ℤ) + 2) err (1 * factor)
    let im := distribute_error_gray im ((p.1 : ℤ) - 1) ((p.2 : ℤ) + 2) err (2 * factor)
    let im := distribute_error_gray im (p.1 : ℤ) ((p.2 : ℤ) + 2) err (4 * factor)
    let im := distribute_error_gray im ((p.1 : ℤ) + 1) ((p.2 : ℤ) + 2) err (2 * factor)
    distribute_error_gray im ((p.1 : ℤ) + 2) ((p.2 : ℤ) + 2) err (1 * factor)) img

/-- `burkes_dither` (denominator 32). -/
def burkes_dither (img : Img) (settings : DitherSettings) : Img :=
  (rowMajor img.width img.height).foldl (fun im p =>
    let step := diffusePixel im p settings.color_levels
    let im := step.1
    let err := step.2
    let factor : ℚ := 1/32
    let im := distribute_error_gray im ((p.1 : ℤ) + 1) (p.2 : ℤ) err (8 * factor)
    let im := distribute_error_gray im ((p.1 : ℤ) + 2) (p.2 : ℤ) err (4 * factor)
    let im := distribute_error_gray im ((p.1 : ℤ) - 2) ((p.2 : ℤ) + 1) err (2 * factor)
    let im := distribute_error_gray im ((p.1 : ℤ) - 1) ((p.2 : ℤ) + 1) err (4 * factor)
    let im := distribute_error_gray im (p.1 : ℤ) ((p.2 : ℤ) + 1) err (8 * factor)
    let im := distribute_error_gray im ((p.1 : ℤ) + 1) ((p.2 : ℤ) + 1) err (4 * factor)
    distribute_error_gray im ((p.1 : ℤ) + 2) ((p.2 : ℤ) + 1) err (2 * factor)) img

/-- `sierra_dither` (denominator 32). -/
def sierra_dither (img : Img) (settings : DitherSettings) : Img :=
  (rowMajor img.width img.height).foldl (fun im p =>
    let step := diffusePixel im p settings.color_levels
    let im := step.1
    let err := step.2
    let factor : ℚ := 1/32
    let im := distribute_error_gray im ((p.1 : ℤ) + 1) (p.2 : ℤ) err (5 * factor)
    let im := distribute_error_gray im ((p.1 : ℤ) + 2) (p.2 : ℤ) err (3 * factor)
    let im := distribute_error_gray im ((p.1 : ℤ) - 2) ((p.2 : ℤ) + 1) err (2 * factor)
    let im := distribute_error_gray im ((p.1 : ℤ) - 1) ((p.2 : ℤ) + 1) err (4 * factor)
    let im := distribute_error_gray im (p.1 : ℤ) ((p.2 : ℤ) + 1) err (5 * factor)
    let im := distribute_error_gray im ((p.1 : ℤ) + 1) ((p.2 : ℤ) + 1) err (4 * factor)
    let im := distribute_error_gray im ((p.1 : ℤ) + 2) ((p.2 : ℤ) + 1) err (2 * factor)
    let im := distribute_error_gray im ((p.1 : ℤ) - 1) ((p.2 : ℤ) + 2) err (2 * factor)
    let im := distribute_error_gray im (p.1 : ℤ) ((p.2 : ℤ) + 2) err (3 * factor)
    distribute_error_gray im ((p.1 : ℤ) + 1) ((p.2 : ℤ) + 2) err (2 * factor)) img

/-- The 4×4 Bayer matrix of `ordered_dither`. -/
def bayer_matrix : List (List ℕ) :=
  [[0, 8, 2, 10], [12, 4, 14, 6], [3, 11, 1, 9], [15, 7, 13, 5]]

/-- `ordered_dither`. -/
def ordered_dither (img : Img) (settings : DitherSettings) : Img :=
  (rowMajor img.width img.height).foldl (fun im p =>
    let pixel := (im.pix p.1 p.2).r
    let t : ℚ := (((bayer_matrix.getD (p.2 % 4) []).getD (p.1 % 4) 0 : ℚ) / 16 - 1/2)
      * 255 / (settings.color_levels : ℚ)
    let new_gray := quantize_gray (toU8 ((pixel : ℚ) + t)) settings.color_levels
    im.putPixel p.1 p.2 ⟨new_gray, new_gray, new_gray, 255⟩) img

/-- `threshold_dither`. -/
def threshold_dither (img : Img) (settings : DitherSettings) : Img :=
  (rowMajor img.width img.height).foldl (fun im p =>
    let gray := (im.pix p.1 p.2).r
    let value : ℕ := if settings.threshold < (gray : ℚ) then 255 else 0
    im.putPixel p.1 p.2 ⟨value, value, value, 255⟩) img

/-- `scanline_dither`. -/
def scanline_dither (img : Img) (settings : DitherSettings) : Img :=
  (rowMajor img.width img.height).foldl (fun im p =>
    let gray := (im.pix p.1 p.2).r
    let value : ℕ :=
      if p.2 % 2 = 0 then quantize_gray gray settings.color_levels
      else quantize_gray (255 - gray) settings.color_levels
    im.putPixel p.1 p.2 ⟨value, value, value, 255⟩) img

/-- The 2×2 matrix of `pattern_dither`. -/
def pattern_matrix : List (List ℕ) :=
  [[0, 2], [3, 1]]

/-- `pattern_dither`. -/
def pattern_dither (img : Img) (_settings : DitherSettings) : Img :=
  (rowMajor img.width img.height).foldl (fun im p =>
    let pixel := (im.pix p.1 p.2).r
    let t : ℚ := (((pattern_matrix.getD (p.2 % 2) []).getD (p.1 % 2) 0 : ℚ) / 4) * 255
    let value : ℕ := if t < (pixel : ℚ) then 255 else 0
    im.putPixel p.1 p.2 ⟨value, value, value, 255⟩) img

/-- `random_dither`: coordinate-hash threshold with `u32` wrapping. -/
def random_dither (img : Img) (_settings : DitherSettings) : Img :=
  (rowMajor img.width img.height).foldl (fun im p =>
    let pixel := (im.pix p.1 p.2).r
    let random : ℕ := ((p.1 * 1664525) % 2 ^ 32 + (p.2 * 1013904223) % 2 ^ 32) % 2 ^ 32 % 256
    let value : ℕ := if (random : ℚ) < (pixel : ℚ) then 255 else 0
    im.putPixel p.1 p.2 ⟨value, value, value, 255⟩) img

/-- `halftone_dither`; `sqrtQ` models `f32::sqrt`. -/
def halftone_dither (sqrtQ : ℚ → ℚ) (img : Img) (_settings : DitherSettings) : Img :=
  let dot_size : ℕ := 4
  (rowMajor img.width img.height).foldl (fun im p =>
    let pixel := (im.pix p.1 p.2).r
    let cell_x := p.1 % dot_size
    let cell_y := p.2 % dot_size
    let dist := sqrtQ (((cell_x : ℚ) - (dot_size : ℚ) / 2) ^ 2
      + ((cell_y : ℚ) - (dot_size : ℚ) / 2) ^ 2)
    let t : ℚ := dist / ((dot_size : ℚ) / 2) * 255
    let value : ℕ := if t < (pixel : ℚ) then 255 else 0
    im.putPixel p.1 p.2 ⟨value, value, value, 255⟩) img

/-- Wrapping of an integer into the `i16` range, as a Rust `i16` operation
that overflows behaves in release mode. -/
def wrap16 (v : ℤ) : ℤ := (v + 32768) % 65536 - 32768

/-- `apply_custom_colors`: linear duotone remap.  The differences
`custom_white[i] as i16 - custom_black[i] as i16` lie in `[-255, 255]` and
cannot overflow, but the `i16` product `d * gray` reaches `±65025` and can
overflow `i16`; release-mode Rust wraps it (`wrap16`).  The quotient is
`i16` division, i.e. truncation toward zero, its result and the following
sum fit `i16`, and the final `as u8` cast wraps modulo 256. -/
def apply_custom_colors (img : Img) (settings : DitherSettings) : Img :=
  let db := settings.custom_black
  let dw := settings.custom_white
  (rowMajor img.width img.height).foldl (fun im p =>
    let gray : ℤ := ((im.pix p.1 p.2).r : ℤ)
    let r := (((db.1 : ℤ) + (wrap16 (((dw.1 : ℤ) - (db.1 : ℤ)) * gray)).tdiv 255) % 256).toNat
    let g := (((db.2.1 : ℤ) + (wrap16 (((dw.2.1 : ℤ) - (db.2.1 : ℤ)) * gray)).tdiv 255) % 256).toNat
    let b := (((db.2.2 : ℤ) + (wrap16 (((dw.2.2 : ℤ) - (db.2.2 : ℤ)) * gray)).tdiv 255) % 256).toNat
    im.putPixel p.1 p.2 ⟨r, g, b, 255⟩) img

/-- `apply_dither`: grayscale conversion, black/white-point rescale,
algorithm dispatch, optional duotone recolor.  `sqrtQ` models `f32::sqrt`
(used only by the halftone branch). -/
def apply_dither (sqrtQ : ℚ → ℚ) (image : Img) (settings : DitherSettings) : Img :=
  let gray_img := to_luma8 image
  let w := gray_img.width
  let h := gray_img.height
  let scale : ℚ := 255 / (settings.white_point - settings.black_point)
  let img := (rowMajor w h).foldl (fun im p =>
    let gray : ℚ := ((gray_img.pix p.1 p.2).r : ℚ)
    let adjusted := toU8 (qclamp ((gray - settings.black_point) * scale) 0 255)
    im.putPixel p.1 p.2 ⟨adjusted, adjusted, adjusted, 255⟩) (rgbaNew w h)
  let img :=
    match settings.algorithm with
    | .Threshold => threshold_dither img settings
    | .Ordered => ordered_dither img settings
    | .Scanline => scanline_dither img settings
    | .Pattern => pattern_dither img settings
    | .Random => random_dither img settings
    | .Halftone => halftone_dither sqrtQ img settings
    | .FloydSteinberg => floyd_steinberg_dither img settings
    | .Atkinson => atkinson_dither img settings
    | .Jarvis => jarvis_dither img settings
    | .Stucki => stucki_dither img settings
    | .Burkes => burkes_dither img settings
    | .Sierra => sierra_dither img settings
  if settings.custom_black ≠ (0, 0, 0) ∨ settings.custom_white ≠ (255, 255, 255) then
    apply_custom_colors img settings
  else
    img

/-! ## FisheyeWarp (src/fisheyeconverter.rs) -/

structure FisheyeSettings where
  strength : ℚ
  zoom : ℚ
  center_x : ℚ
  center_y : ℚ
deriving DecidableEq, Repr

/-- `FisheyeSettings::default()`. -/
def fisheyeDefault : FisheyeSettings :=
  { strength := 1/2, zoom := 1, center_x := 1/2, center_y := 1/2 }

namespace Fisheye

/-- `sample_bilinear` of src/fisheyeconverter.rs: transparent black outside
`[0, width-1) × [0, height-1)`, otherwise a bilinear blend of the four
enclosing pixels, each channel clamped to `[0, 255]` and truncated.
`width - 1` is `u32` subtraction; callers always pass the dimensions of a
nonempty image. -/
def sample_bilinear (img : Img) (x y : ℚ) (width height : ℕ) : Pix :=
  if x < 0 ∨ y < 0 ∨ ((width - 1 : ℕ) : ℚ) ≤ x ∨ ((height - 1 : ℕ) : ℚ) ≤ y then
    ⟨0, 0, 0, 0⟩
  else
    let x0 := (⌊x⌋).toNat
    let y0 := (⌊y⌋).toNat
    let x1 := min (x0 + 1) (width - 1)
    let y1 := min (y0 + 1) (height - 1)
    let fx := x - (x0 : ℚ)
    let fy := y - (y0 : ℚ)
    let p00 := img.pix x0 y0
    let p10 := img.pix x1 y0
    let p01 := img.pix x0 y1
    let p11 := img.pix x1 y1
    let blend := fun (v00 v10 v01 v11 : ℕ) =>
      let v0 := (v00 : ℚ) * (1 - fx) + (v10 : ℚ) * fx
      let v1 := (v01 : ℚ) * (1 - fx) + (v11 : ℚ) * fx
      toU8 (qclamp (v0 * (1 - fy) + v1 * fy) 0 255)
    ⟨blend p00.r p10.r p01.r p11.r, blend p00.g p10.g p01.g p11.g,
     blend p00.b p10.b p01.b p11.b, blend p00.a p10.a p01.a p11.a⟩

end Fisheye

namespace Crt

/-- `sample_bilinear` of src/crtconverter.rs — textually identical to the
copy in src/fisheyeconverter.rs. -/
def sample_bilinear (img : Img) (x y : ℚ) (width height : ℕ) : Pix :=
  if x < 0 ∨ y < 0 ∨ ((width - 1 : ℕ) : ℚ) ≤ x ∨ ((height - 1 : ℕ) : ℚ) ≤ y then
    ⟨0, 0, 0, 0⟩
  else
    let x0 := (⌊x⌋).toNat
    let y0 := (⌊y⌋).toNat
    let x1 := min (x0 + 1) (width - 1)
    let y1 := min (y0 + 1) (height - 1)
    let fx := x - (x0 : ℚ)
    let fy := y - (y0 : ℚ)
    let p00 := img.pix x0 y0
    let p10 := img.pix x1 y0
    let p01 := img.pix x0 y1
    let p11 := img.pix x1 y1
    let blend := fun (v00 v10 v01 v11 : ℕ) =>
      let v0 := (v00 : ℚ) * (1 - fx) + (v10 : ℚ) * fx
      let v1 := (v01 : ℚ) * (1 - fx) + (v11 : ℚ) * fx
      toU8 (qclamp (v0 * (1 - fy) + v1 * fy) 0 255)
    ⟨blend p00.r p10.r p01.r p11.r, blend p00.g p10.g p01.g p11.g,
     blend p00.b p10.b p01.b p11.b, blend p00.a p10.a p01.a p11.a⟩

end Crt

/-! ## AsciiRenderer and ColorSpace (src/asciiconverter.rs) -/

/-- The Rust `%` operator on floats: remainder with the sign of the
dividend (truncated division). -/
def fmodQ (a b : ℚ) : ℚ := a - b * (truncQ (a / b) : ℚ)

/-- `rgb_to_hsv(r, g, b)`. -/
def rgb_to_hsv (r g b : ℚ) : ℚ × ℚ × ℚ :=
  let maxv := max (max r g) b
  let minv := min (min r g) b
  let delta := maxv - minv
  let v := maxv
  let s := if maxv = 0 then 0 else delta / maxv
  let h :=
    if delta = 0 then 0
    else if maxv = r then 60 * fmodQ ((g - b) / delta) 6
    else if maxv = g then 60 * ((b - r) / delta + 2)
    else 60 * ((r - g) / delta + 4)
  let h := if h < 0 then h + 360 else h
  (h, s, v)

/-- `hsv_to_rgb(h, s, v)`. -/
def hsv_to_rgb (h s v : ℚ) : ℚ × ℚ × ℚ :=
  let c := v * s
  let x := c * (1 - |fmodQ (h / 60) 2 - 1|)
  let m := v - c
  let rgb :=
    if h < 60 then (c, x, 0)
    else if h < 120 then (x, c, 0)
    else if h < 180 then ((0 : ℚ), c, x)
    else if h < 240 then ((0 : ℚ), x, c)
    else if h < 300 then (x, (0 : ℚ), c)
    else (c, (0 : ℚ), x)
  (rgb.1 + m, rgb.2.1 + m, rgb.2.2 + m)

inductive DetailLevel where
  | Low
  | Medium
  | High
  | VeryHigh
  | Custom (width : ℕ)
deriving DecidableEq, Repr

/-- `DetailLevel::get_width`. -/
def DetailLevel.get_width : DetailLevel → ℕ
  | .Low => 80
  | .Medium => 120
  | .High => 180
  | .VeryHigh => 250
  | .Custom width => width

structure AsciiSettings where
  use_colors : Bool
  brightness : ℚ
  contrast : ℚ
  detail_level : DetailLevel
  font_size : ℚ
deriving DecidableEq, Repr

/-- `AsciiSettings::default()`. -/
def asciiDefault : AsciiSettings :=
  { use_colors := true
    brightness := 12/10
    contrast := 13/10
    detail_level := .Medium
    font_size := 12 }

/-- An `egui::Color32` opaque RGB colour. -/
structure Color32 where
  cr : ℕ
  cg : ℕ
  cb : ℕ
deriving DecidableEq, Repr

/-- The character set of `convert_image_to_ascii`, "ordered by actual
visual density" (densest first, space last). -/
def asciiCharset : List Char :=
  "$@B%8&WM#*oahkbdpqwmZO0QLCJUYXzcvunxrjft/\\|()1\x7b\x7d[]?-_+~<>i!lI;:,\"^`\x27. ".toList

structure ConversionResult where
  ascii_art : List Char
  colored_ascii : List (List (Color32 × Char))

/-- One cell of `convert_image_to_ascii`: the per-pixel body of the nested
loops.  `powQ` models `f32::powf` (used for the 1.5-exponent curve). -/
def asciiCell (powQ : ℚ → ℚ → ℚ) (settings : AsciiSettings) (rgb_img : Img)
    (x y : ℕ) : Color32 × Char :=
  let pixel := rgb_img.pix x y
  let r : ℚ := (pixel.r : ℚ) / 255
  let g : ℚ := (pixel.g : ℚ) / 255
  let b : ℚ := (pixel.b : ℚ) / 255
  let brightness := 2126/10000 * r + 7152/10000 * g + 722/10000 * b
  let adjusted_brightness := ((brightness - 1/2) * settings.contrast + 1/2) * settings.brightness
  let clamped_brightness := qclamp adjusted_brightness 0 1
  let curved_brightness := powQ clamped_brightness (3/2)
  let inverted := 1 - curved_brightness
  let char_index := (rustRound (inverted * ((asciiCharset.length - 1 : ℕ) : ℚ))).toNat
  let ascii_char := asciiCharset.getD (min char_index (asciiCharset.length - 1)) ' '
  if settings.use_colors then
    let hsv := rgb_to_hsv r g b
    let v := hsv.2.2
    let saturation_boost : ℚ :=
      if 1/5 < v ∧ v < 9/10 then 14/10
      else if 9/10 ≤ v then 11/10
      else 16/10
    let enhanced_s := min (hsv.2.1 * saturation_boost) 1
    let enhanced_v := if v < 3/10 then min (v * (115/100)) 1 else v
    let fin := hsv_to_rgb hsv.1 enhanced_s enhanced_v
    (⟨toU8 (fin.1 * 255), toU8 (fin.2.1 * 255), toU8 (fin.2.2 * 255)⟩, ascii_char)
  else
    let gray := toU8 (clamped_brightness * 255)
    (⟨gray, gray, gray⟩, ascii_char)

/-- `convert_image_to_ascii`.  `resize_exact` models the `image` crate's
`DynamicImage::resize_exact(char_width, char_height, Lanczos3)` external
resampler (callers may assume it returns an image of the requested
dimensions); `to_rgb8` is the identity on the model.  The text output
gets one `'\n'` pushed after every row, exactly as the source. -/
def convert_image_to_ascii (resize_exact : Img → ℕ → ℕ → Img) (powQ : ℚ → ℚ → ℚ)
    (image : Img) (settings : AsciiSettings) (original_dimensions : ℕ × ℕ) : ConversionResult :=
  let orig_width := original_dimensions.1
  let orig_height := original_dimensions.2
  let char_width0 := settings.detail_level.get_width
  let char_height0 := toU32 ((char_width0 : ℚ) * (orig_height : ℚ) / (orig_width : ℚ) * (1/2))
  let char_width := max char_width0 10
  let char_height := max char_height0 5
  let rgb_img := resize_exact image char_width char_height
  let colored_result := (List.range char_height).map (fun y =>
    (List.range char_width).map (fun x => asciiCell powQ settings rgb_img x y))
  let ascii_result := (colored_result.map (fun row => row.map Prod.snd ++ ['\n'])).flatten
  ⟨ascii_result, colored_result⟩

/-! ## Claim-side definitions and concrete inputs -/

/-- The Floyd-Steinberg kernel as stated by the specification: offsets
`(x+1,y), (x-1,y+1), (x,y+1), (x+1,y+1)` with weights `7/16, 3/16, 5/16,
1/16`. -/
def fs_kernel : List (ℤ × ℤ × ℚ) :=
  [(1, 0, 7/16), (-1, 1, 3/16), (0, 1, 5/16), (1, 1, 1/16)]

/-- One neighbour write of the specification's error-diffusion skeleton:
the pixel stores 8-bit integers, so the exact rational share `err * weight`
is truncated toward zero before being added; the result is clamped to
`[0, 255]`, and an out-of-bounds target is silently skipped. -/
def diffuse_to_neighbor (err : ℤ) (px py : ℕ) (im : Img) (k : ℤ × ℤ × ℚ) : Img :=
  let nx := (px : ℤ) + k.1
  let ny := (py : ℤ) + k.2.1
  if 0 ≤ nx ∧ nx < (im.width : ℤ) ∧ 0 ≤ ny ∧ ny < (im.height : ℤ) then
    let old := (im.pix nx.toNat ny.toNat).r
    let v := (max 0 (min 255 ((old : ℤ) + truncQ ((err : ℚ) * k.2.2)))).toNat
    im.putPixel nx.toNat ny.toNat ⟨v, v, v, 255⟩
  else
    im

/-- Floyd-Steinberg as described by the specification: scan pixels in
row-major order; at each pixel write the quantized value in place, compute
`err = old - new`, then distribute the kernel shares of `fs_kernel` to the
neighbours. -/
def floyd_steinberg_spec (img : Img) (settings : DitherSettings) : Img :=
  (rowMajor img.width img.height).foldl (fun im p =>
    let old_gray := (im.pix p.1 p.2).r
    let new_gray := quantize_gray old_gray settings.color_levels
    let im := im.putPixel p.1 p.2 ⟨new_gray, new_gray, new_gray, 255⟩
    let err := (old_gray : ℤ) - (new_gray : ℤ)
    fs_kernel.foldl (fun im k => diffuse_to_neighbor err p.1 p.2 im k) im) img

/-- The Atkinson kernel (weights as in the source: six shares of `1/8`). -/
def atkinson_kernel : List (ℤ × ℤ × ℚ) :=
  [(1, 0, 1/8), (2, 0, 1/8), (-1, 1, 1/8), (0, 1, 1/8), (1, 1, 1/8), (0, 2, 1/8)]

/-- The Jarvis-Judice-Ninke kernel (denominator 48). -/
def jarvis_kernel : List (ℤ × ℤ × ℚ) :=
  [(1, 0, 7 * (1/48)), (2, 0, 5 * (1/48)),
   (-2, 1, 3 * (1/48)), (-1, 1, 5 * (1/48)), (0, 1, 7 * (1/48)),
   (1, 1, 5 * (1/48)), (2, 1, 3 * (1/48)),
   (-2, 2, 1 * (1/48)), (-1, 2, 3 * (1/48)), (0, 2, 5 * (1/48)),
   (1, 2, 3 * (1/48)), (2, 2, 1 * (1/48))]

/-- The Stucki kernel (denominator 42). -/
def stucki_kernel : List (ℤ × ℤ × ℚ) :=
  [(1, 0, 8 * (1/42)), (2, 0, 4 * (1/42)),
   (-2, 1, 2 * (1/42)), (-1, 1, 4 * (1/42)), (0, 1, 8 * (1/42)),
   (1, 1, 4 * (1/42)), (2, 1, 2 * (1/42)),
   (-2, 2, 1 * (1/42)), (-1, 2, 2 * (1/42)), (0, 2, 4 * (1/42)),
   (1, 2, 2 * (1/42)), (2, 2, 1 * (1/42))]

/-- The Burkes kernel (denominator 32). -/
def burkes_kernel : List (ℤ × ℤ × ℚ) :=
  [(1, 0, 8 * (1/32)), (2, 0, 4 * (1/32)),
   (-2, 1, 2 * (1/32)), (-1, 1, 4 * (1/32)), (0, 1, 8 * (1/32)),
   (1, 1, 4 * (1/32)), (2, 1, 2 * (1/32))]

/-- The Sierra kernel (denominator 32). -/
def sierra_kernel : List (ℤ × ℤ × ℚ) :=
  [(1, 0, 5 * (1/32)), (2, 0, 3 * (1/32)),
   (-2, 1, 2 * (1/32)), (-1, 1, 4 * (1/32)), (0, 1, 5 * (1/32)),
   (1, 1, 4 * (1/32)), (2, 1, 2 * (1/32)),
   (-1, 2, 2 * (1/32)), (0, 2, 3 * (1/32)), (1, 2, 2 * (1/32))]

/-- Sum of the magnitudes of the integer error shares a kernel distributes
for a given quantization error. -/
def kernelShareSum (K : List (ℤ × ℤ × ℚ)) (err : ℤ) : ℕ :=
  (K.map (fun k => (truncQ ((err : ℚ) * k.2.2)).natAbs)).sum

/-- Sum of a kernel's weights. -/
def kernelWeightSum (K : List (ℤ × ℤ × ℚ)) : ℚ :=
  (K.map (fun k => k.2.2)).sum

/-- `quantize_gray` for `2 ≤ levels ≤ 255`, rewritten as pure natural
arithmetic (proved equivalent in `quantize_gray_eq_nat`). -/
def quantizeNat (v n : ℕ) : ℕ :=
  min 255 ((2 * v * (n - 1) + 255) / 510 * 255 / (n - 1))

/-- The specification's real-valued quantization formula
`min (round(v/step) * step) 255` with `step = 255/(levels-1)`, before any
integer truncation. -/
def quantizeQ (v : ℚ) (n : ℕ) : ℚ :=
  let step : ℚ := 255 / ((n - 1 : ℕ) : ℚ)
  min ((rustRound (v / step) : ℚ) * step) 255

/-- Predicate holding of every in-bounds pixel of an image. -/
def pixOn (P : Pix → Prop) (im : Img) : Prop :=
  ∀ x y, x < im.width → y < im.height → P (im.pix x y)

/-- A concrete stand-in for `f32::sqrt` (any function works for the claims
that take the square root abstractly). -/
def sqrtStub : ℚ → ℚ := fun q => q

/-- A concrete stand-in for `f32::powf`; it agrees with `powf` at exponent
one, which is all the identity-warp claim needs. -/
def powStub : ℚ → ℚ → ℚ := fun q _ => q

/-- A concrete stand-in for the external Lanczos3 `resize_exact`. -/
def resizeStub : Img → ℕ → ℕ → Img := fun _ w h => ⟨w, h, fun _ _ => ⟨0, 0, 0, 255⟩⟩

/-- A 4×4 image whose every pixel is mid-gray `(128,128,128)`. -/
def grayImg4 : Img := ⟨4, 4, fun _ _ => ⟨128, 128, 128, 255⟩⟩

/-- A 1×1 mid-gray image. -/
def grayImg1 : Img := ⟨1, 1, fun _ _ => ⟨128, 128, 128, 255⟩⟩

/-- Default dither settings with the Threshold algorithm and a given
threshold. -/
def thresholdSettings (t : ℚ) : DitherSettings :=
  { ditherDefault with algorithm := .Threshold, threshold := t }

/-- Default dither settings with `color_levels = 1` (the invalid value the
error-handling claim is about). -/
def levels1Settings : DitherSettings :=
  { ditherDefault with color_levels := 1 }

/-- A concrete 2×2 image with four distinct valid pixels. -/
def checker2 : Img :=
  ⟨2, 2, fun x y =>
    if x = 0 ∧ y = 0 then ⟨200, 10, 30, 255⟩
    else if x = 1 ∧ y = 0 then ⟨5, 250, 40, 128⟩
    else if x = 0 ∧ y = 1 then ⟨17, 99, 201, 7⟩
    else ⟨255, 0, 255, 0⟩⟩

/-- The 2×1 image `[(255,0,0), (0,0,0)]` of the ASCII scenario claim. -/
def asciiImg2x1 : Img :=
  ⟨2, 1, fun x _ => if x = 0 then ⟨255, 0, 0, 255⟩ else ⟨0, 0, 0, 255⟩⟩

/-- `AsciiSettings{detail_level = Custom(2), use_colors = false}`, other
fields at their defaults. -/
def asciiC6Settings : AsciiSettings :=
  { asciiDefault with detail_level := .Custom 2, use_colors := false }

/-- The per-pixel value written by `apply_dither`'s initial black/white-point
rescale loop (definitionally equal to the loop body's pixel). -/
def adjustedGray (image : Img) (settings : DitherSettings) (p : ℕ × ℕ) : Pix :=
  let gray : ℚ := (((to_luma8 image).pix p.1 p.2).r : ℚ)
  let adjusted := toU8 (qclamp ((gray - settings.black_point)
    * (255 / (settings.white_point - settings.black_point))) 0 255)
  ⟨adjusted, adjusted, adjusted, 255⟩

/-! ## Helper lemmas -/

theorem mem_rowMajor {w h x y : ℕ} : (x, y) ∈ rowMajor w h ↔ x < w ∧ y < h := by
  simp only [rowMajor, List.mem_flatten, List.mem_map, List.mem_range]
  constructor
  · rintro ⟨l, ⟨y', hy', rfl⟩, hm⟩
    rcases List.mem_map.mp hm with ⟨x', hx', heq⟩
    rcases Prod.mk.injEq .. ▸ heq with ⟨rfl, rfl⟩
    exact ⟨List.mem_range.mp hx', hy'⟩
  · rintro ⟨hx, hy⟩
    exact ⟨(List.range w).map (fun x => (x, y)), ⟨y, hy, rfl⟩,
      List.mem_map.mpr ⟨x, List.mem_range.mpr hx, rfl⟩⟩

theorem putPixel_width (im : Img) (x y : ℕ) (p : Pix) :
    (im.putPixel x y p).width = im.width := rfl

theorem putPixel_height (im : Img) (x y : ℕ) (p : Pix) :
    (im.putPixel x y p).height = im.height := rfl

theorem distribute_dims (im : Img) (x y err : ℤ) (factor : ℚ) :
    (distribute_error_gray im x y err factor).width = im.width
    ∧ (distribute_error_gray im x y err factor).height = im.height := by
  unfold distribute_error_gray
  split <;> exact ⟨rfl, rfl⟩

theorem foldl_dims {α : Type} (step : Img → α → Img)
    (h : ∀ im a, (step im a).width = im.width ∧ (step im a).height = im.height) :
    ∀ (l : List α) (im : Img),
      (l.foldl step im).width = im.width ∧ (l.foldl step im).height = im.height := by
  intro l
  induction l with
  | nil => exact fun im => ⟨rfl, rfl⟩
  | cons a l ih =>
    intro im
    rw [List.foldl_cons]
    exact ⟨(ih (step im a)).1.trans (h im a).1, (ih (step im a)).2.trans (h im a).2⟩

theorem foldl_put_pix (f : ℕ × ℕ → Pix) :
    ∀ (l : List (ℕ × ℕ)) (im : Img) (x y : ℕ),
      (l.foldl (fun im p => im.putPixel p.1 p.2 (f p)) im).pix x y
        = if (x, y) ∈ l then f (x, y) else im.pix x y := by
  intro l
  induction l with
  | nil => simp
  | cons q l ih =>
    intro im x y
    rw [List.foldl_cons, ih]
    by_cases hm : (x, y) ∈ l
    · simp [hm, List.mem_cons]
    · by_cases hq : (x, y) = q
      · have hx : x = q.1 ∧ y = q.2 := by
          rw [← hq]
          exact ⟨rfl, rfl⟩
        simp [hm, hq, List.mem_cons, Img.putPixel, hx]
      · have hx : ¬(x = q.1 ∧ y = q.2) := by
          rintro ⟨h1, h2⟩
          exact hq (by rw [h1, h2])
        simp [hm, hq, List.mem_cons, Img.putPixel, hx]

theorem pixOn_putPixel {P : Pix → Prop} {im : Img} {x y : ℕ} {p : Pix}
    (hp : P p) (h : pixOn P im) : pixOn P (im.putPixel x y p) := by
  intro u v hu hv
  simp only [Img.putPixel] at hu hv ⊢
  split
  · exact hp
  · exact h u v hu hv

theorem pixOn_distribute {P : Pix → Prop} (hg : ∀ g : ℕ, P ⟨g, g, g, 255⟩)
    {im : Img} {x y err : ℤ} {factor : ℚ} (h : pixOn P im) :
    pixOn P (distribute_error_gray im x y err factor) := by
  unfold distribute_error_gray
  split
  · exact pixOn_putPixel (hg _) h
  · exact h

theorem pixOn_foldl {α : Type} {P : Pix → Prop} (step : Img → α → Img)
    (hstep : ∀ im a, pixOn P im → pixOn P (step im a)) :
    ∀ (l : List α) (im : Img), pixOn P im → pixOn P (l.foldl step im) := by
  intro l
  induction l with
  | nil => exact fun im h => h
  | cons a l ih =>
    intro im h
    rw [List.foldl_cons]
    exact ih (step im a) (hstep im a h)

theorem distribute_width (im : Img) (x y err : ℤ) (factor : ℚ) :
    (distribute_error_gray im x y err factor).width = im.width :=
  (distribute_dims im x y err factor).1

theorem distribute_height (im : Img) (x y err : ℤ) (factor : ℚ) :
    (distribute_error_gray im x y err factor).height = im.height :=
  (distribute_dims im x y err factor).2


theorem pixOn_threshold_dither {P : Pix → Prop} (hg : ∀ g : ℕ, P ⟨g, g, g, 255⟩)
    (img : Img) (settings : DitherSettings) (h : pixOn P img) :
    pixOn P (threshold_dither img settings) := by
  simp only [threshold_dither]
  refine pixOn_foldl _ (fun im p hp => ?_) _ _ h
  exact pixOn_putPixel (hg _) hp

theorem dims_threshold_dither (img : Img) (settings : DitherSettings) :
    (threshold_dither img settings).width = img.width
    ∧ (threshold_dither img settings).height = img.height := by
  simp only [threshold_dither]
  refine foldl_dims _ (fun im p => ?_) _ _
  constructor <;>
    simp [diffusePixel, distribute_width, distribute_height, Img.putPixel]

theorem pixOn_ordered_dither {P : Pix → Prop} (hg : ∀ g : ℕ, P ⟨g, g, g, 255⟩)
    (img : Img) (settings : DitherSettings) (h : pixOn P img) :
    pixOn P (ordered_dither img settings) := by
  simp only [ordered_dither]
  refine pixOn_foldl _ (fun im p hp => ?_) _ _ h
  exact pixOn_putPixel (hg _) hp

theorem dims_ordered_dither (img : Img) (settings : DitherSettings) :
    (ordered_dither img settings).width = img.width
    ∧ (ordered_dither img settings).height = img.height := by
  simp only [ordered_dither]
  refine foldl_dims _ (fun im p => ?_) _ _
  constructor <;>
    simp [diffusePixel, distribute_width, distribute_height, Img.putPixel]

theorem pixOn_scanline_dither {P : Pix → Prop} (hg : ∀ g : ℕ, P ⟨g, g, g, 255⟩)
    (img : Img) (settings : DitherSettings) (h : pixOn P img) :
    pixOn P (scanline_dither img settings) := by
  simp only [scanline_dither]
  refine pixOn_foldl _ (fun im p hp => ?_) _ _ h
  exact pixOn_putPixel (hg _) hp

theorem dims_scanline_dither (img : Img) (settings : DitherSettings) :
    (scanline_dither img settings).width = img.width
    ∧ (scanline_dither img settings).height = img.height := by
  simp only [scanline_dither]
  refine foldl_dims _ (fun im p => ?_) _ _
  constructor <;>
    simp [diffusePixel, distribute_width, distribute_height, Img.putPixel]

theorem pixOn_pattern_dither {P : Pix → Prop} (hg : ∀ g : ℕ, P ⟨g, g, g, 255⟩)
    (img : Img) (settings : DitherSettings) (h : pixOn P img) :
    pixOn P (pattern_dither img settings) := by
  simp only [pattern_dither]
  refine pixOn_foldl _ (fun im p hp => ?_) _ _ h
  exact pixOn_putPixel (hg _) hp

theorem dims_pattern_dither (img : Img) (settings : DitherSettings) :
    (pattern_dither img settings).width = img.width
    ∧ (pattern_dither img settings).height = img.height := by
  simp only [pattern_dither]
  refine foldl_dims _ (fun im p => ?_) _ _
  constructor <;>
    simp [diffusePixel, distribute_width, distribute_height, Img.putPixel]

theorem pixOn_random_dither {P : Pix → Prop} (hg : ∀ g : ℕ, P ⟨g, g, g, 255⟩)
    (img : Img) (settings : DitherSettings) (h : pixOn P img) :
    pixOn P (random_dither img settings) := by
  simp only [random_dither]
  refine pixOn_foldl _ (fun im p hp => ?_) _ _ h
  exact pixOn_putPixel (hg _) hp

theorem dims_random_dither (img : Img) (settings : DitherSettings) :
    (random_dither img settings).width = img.width
    ∧ (random_dither img settings).height = img.height := by
  simp only [random_dither]
  refine foldl_dims _ (fun im p => ?_) _ _
  constructor <;>
    simp [diffusePixel, distribute_width, distribute_height, Img.putPixel]

theorem pixOn_halftone_dither {P : Pix → Prop} (hg : ∀ g : ℕ, P ⟨g, g, g, 255⟩)
    (sqrtQ : ℚ → ℚ) (img : Img) (settings : DitherSettings) (h : pixOn P img) :
    pixOn P (halftone_dither sqrtQ img settings) := by
  simp only [halftone_dither]
  refine pixOn_foldl _ (fun im p hp => ?_) _ _ h
  exact pixOn_putPixel (hg _) hp

theorem dims_halftone_dither (sqrtQ : ℚ → ℚ) (img : Img) (settings : DitherSettings) :
    (halftone_dither sqrtQ img settings).width = img.width
    ∧ (halftone_dither sqrtQ img settings).height = img.height := by
  simp only [halftone_dither]
  refine foldl_dims _ (fun im p => ?_) _ _
  constructor <;>
    simp [diffusePixel, distribute_width, distribute_height, Img.putPixel]

theorem pixOn_floyd_steinberg_dither {P : Pix → Prop} (hg : ∀ g : ℕ, P ⟨g, g, g, 255⟩)
    (img : Img) (settings : DitherSettings) (h : pixOn P img) :
    pixOn P (floyd_steinberg_dither img settings) := by
  simp only [floyd_steinberg_dither]
  refine pixOn_foldl _ (fun im p hp => ?_) _ _ h
  exact pixOn_distribute hg (pixOn_distribute hg (pixOn_distribute hg (pixOn_distribute hg (pixOn_putPixel (hg _) hp))))

theorem dims_floyd_steinberg_dither (img : Img) (settings : DitherSettings) :
    (floyd_steinberg_dither img settings).width = img.width
    ∧ (floyd_steinberg_dither img settings).height = img.height := by
  simp only [floyd_steinberg_dither]
  refine foldl_dims _ (fun im p => ?_) _ _
  constructor <;>
    simp [diffusePixel, distribute_width, distribute_height, Img.putPixel]

theorem pixOn_atkinson_dither {P : Pix → Prop} (hg : ∀ g : ℕ, P ⟨g, g, g, 255⟩)
    (img : Img) (settings : DitherSettings) (h : pixOn P img) :
    pixOn P (atkinson_dither img settings) := by
  simp only [atkinson_dither]
  refine pixOn_foldl _ (fun im p hp => ?_) _ _ h
  exact pixOn_distribute hg (pixOn_distribute hg (pixOn_distribute hg (pixOn_distribute hg (pixOn_distribute hg (pixOn_distribute hg (pixOn_putPixel (hg _) hp))))))

theorem dims_atkinson_dither (img : Img) (settings : DitherSettings) :
    (atkinson_dither img settings).width = img.width
    ∧ (atkinson_dither img settings).height = img.height := by
  simp only [atkinson_dither]
  refine foldl_dims _ (fun im p => ?_) _ _
  constructor <;>
    simp [diffusePixel, distribute_width, distribute_height, Img.putPixel]

theorem pixOn_jarvis_dither {P : Pix → Prop} (hg : ∀ g : ℕ, P ⟨g, g, g, 255⟩)
    (img : Img) (settings : DitherSettings) (h : pixOn P img) :
    pixOn P (jarvis_dither img settings) := by
  simp only [jarvis_dither]
  refine pixOn_foldl _ (fun im p hp => ?_) _ _ h
  exact pixOn_distribute hg (pixOn_distribute hg (pixOn_distribute hg (pixOn_distribute hg (pixOn_distribute hg (pixOn_distribute hg (pixOn_distribute hg (pixOn_distribute hg (pixOn_distribute hg (pixOn_distribute hg (pixOn_distribute hg (pixOn_distribute hg (pixOn_putPixel (hg _) hp))))))))))))

theorem dims_jarvis_dither (img : Img) (settings : DitherSettings) :
    (jarvis_dither img settings).width = img.width
    ∧ (jarvis_dither img settings).height = img.height := by
  simp only [jarvis_dither]
  refine foldl_dims _ (fun im p => ?_) _ _
  constructor <;>
    simp [diffusePixel, distribute_width, distribute_height, Img.putPixel]

theorem pixOn_stucki_dither {P : Pix → Prop} (hg : ∀ g : ℕ, P ⟨g, g, g, 255⟩)
    (img : Img) (settings : DitherSettings) (h : pixOn P img) :
    pixOn P (stucki_dither img settings) := by
  simp only [stucki_dither]
  refine pixOn_foldl _ (fun im p hp => ?_) _ _ h
  exact pixOn_distribute hg (pixOn_distribute hg (pixOn_distribute hg (pixOn_distribute hg (pixOn_distribute hg (pixOn_distribute hg (pixOn_distribute hg (pixOn_distribute hg (pixOn_distribute hg (pixOn_distribute hg (pixOn_distribute hg (pixOn_distribute hg (pixOn_putPixel (hg _) hp))))))))))))

theorem dims_stucki_dither (img : Img) (settings : DitherSettings) :
    (stucki_dither img settings).width = img.width
    ∧ (stucki_dither img settings).height = img.height := by
  simp only [stucki_dither]
  refine foldl_dims _ (fun im p => ?_) _ _
  constructor <;>
    simp [diffusePixel, distribute_width, distribute_height, Img.putPixel]

theorem pixOn_burkes_dither {P : Pix → Prop} (hg : ∀ g : ℕ, P ⟨g, g, g, 255⟩)
    (img : Img) (settings : DitherSettings) (h : pixOn P img) :
    pixOn P (burkes_dither img settings) := by
  simp only [burkes_dither]
  refine pixOn_foldl _ (fun im p hp => ?_) _ _ h
  exact pixOn_distribute hg (pixOn_distribute hg (pixOn_distribute hg (pixOn_distribute hg (pixOn_distribute hg (pixOn_distribute hg (pixOn_distribute hg (pixOn_putPixel (hg _) hp)))))))

theorem dims_burkes_dither (img : Img) (settings : DitherSettings) :
    (burkes_dither img settings).width = img.width
    ∧ (burkes_dither img settings).height = img.height := by
  simp only [burkes_dither]
  refine foldl_dims _ (fun im p => ?_) _ _
  constructor <;>
    simp [diffusePixel, distribute_width, distribute_height, Img.putPixel]

theorem pixOn_sierra_dither {P : Pix → Prop} (hg : ∀ g : ℕ, P ⟨g, g, g, 255⟩)
    (img : Img) (settings : DitherSettings) (h : pixOn P img) :
    pixOn P (sierra_dither img settings) := by
  simp only [sierra_dither]
  refine pixOn_foldl _ (fun im p hp => ?_) _ _ h
  exact pixOn_distribute hg (pixOn_distribute hg (pixOn_distribute hg (pixOn_distribute hg (pixOn_distribute hg (pixOn_distribute hg (pixOn_distribute hg (pixOn_distribute hg (pixOn_distribute hg (pixOn_distribute hg (pixOn_putPixel (hg _) hp))))))))))

theorem dims_sierra_dither (img : Img) (settings : DitherSettings) :
    (sierra_dither img settings).width = img.width
    ∧ (sierra_dither img settings).height = img.height := by
  simp only [sierra_dither]
  refine foldl_dims _ (fun im p => ?_) _ _
  constructor <;>
    simp [diffusePixel, distribute_width, distribute_height, Img.putPixel]

theorem pixOn_dispatch (P : Pix → Prop) (hg : ∀ g : ℕ, P ⟨g, g, g, 255⟩)
    (sqrtQ : ℚ → ℚ) (settings : DitherSettings) (img : Img) (h : pixOn P img) :
    pixOn P (match settings.algorithm with
      | .Threshold => threshold_dither img settings
      | .Ordered => ordered_dither img settings
      | .Scanline => scanline_dither img settings
      | .Pattern => pattern_dither img settings
      | .Random => random_dither img settings
      | .Halftone => halftone_dither sqrtQ img settings
      | .FloydSteinberg => floyd_steinberg_dither img settings
      | .Atkinson => atkinson_dither img settings
      | .Jarvis => jarvis_dither img settings
      | .Stucki => stucki_dither img settings
      | .Burkes => burkes_dither img settings
      | .Sierra => sierra_dither img settings) := by
  cases hA : settings.algorithm
  case Threshold => exact pixOn_threshold_dither hg _ _ h
  case Ordered => exact pixOn_ordered_dither hg _ _ h
  case Scanline => exact pixOn_scanline_dither hg _ _ h
  case Pattern => exact pixOn_pattern_dither hg _ _ h
  case Random => exact pixOn_random_dither hg _ _ h
  case Halftone => exact pixOn_halftone_dither hg sqrtQ _ _ h
  case FloydSteinberg => exact pixOn_floyd_steinberg_dither hg _ _ h
  case Atkinson => exact pixOn_atkinson_dither hg _ _ h
  case Jarvis => exact pixOn_jarvis_dither hg _ _ h
  case Stucki => exact pixOn_stucki_dither hg _ _ h
  case Burkes => exact pixOn_burkes_dither hg _ _ h
  case Sierra => exact pixOn_sierra_dither hg _ _ h

theorem dims_dispatch (sqrtQ : ℚ → ℚ) (settings : DitherSettings) (img : Img) :
    (match settings.algorithm with
      | .Threshold => threshold_dither img settings
      | .Ordered => ordered_dither img settings
      | .Scanline => scanline_dither img settings
      | .Pattern => pattern_dither img settings
      | .Random => random_dither img settings
      | .Halftone => halftone_dither sqrtQ img settings
      | .FloydSteinberg => floyd_steinberg_dither img settings
      | .Atkinson => atkinson_dither img settings
      | .Jarvis => jarvis_dither img settings
      | .Stucki => stucki_dither img settings
      | .Burkes => burkes_dither img settings
      | .Sierra => sierra_dither img settings).width = img.width
    ∧ (match settings.algorithm with
      | .Threshold => threshold_dither img settings
      | .Ordered => ordered_dither img settings
      | .Scanline => scanline_dither img settings
      | .Pattern => pattern_dither img settings
      | .Random => random_dither img settings
      | .Halftone => halftone_dither sqrtQ img settings
      | .FloydSteinberg => floyd_steinberg_dither img settings
      | .Atkinson => atkinson_dither img settings
      | .Jarvis => jarvis_dither img settings
      | .Stucki => stucki_dither img settings
      | .Burkes => burkes_dither img settings
      | .Sierra => sierra_dither img settings).height = img.height := by
  cases hA : settings.algorithm
  case Threshold => exact dims_threshold_dither _ _
  case Ordered => exact dims_ordered_dither _ _
  case Scanline => exact dims_scanline_dither _ _
  case Pattern => exact dims_pattern_dither _ _
  case Random => exact dims_random_dither _ _
  case Halftone => exact dims_halftone_dither sqrtQ _ _
  case FloydSteinberg => exact dims_floyd_steinberg_dither _ _
  case Atkinson => exact dims_atkinson_dither _ _
  case Jarvis => exact dims_jarvis_dither _ _
  case Stucki => exact dims_stucki_dither _ _
  case Burkes => exact dims_burkes_dither _ _
  case Sierra => exact dims_sierra_dither _ _

theorem pixOn_apply_custom_colors (P : Pix → Prop)
    (h255 : ∀ r g b : ℕ, P ⟨r, g, b, 255⟩) (img : Img) (settings : DitherSettings)
    (h : pixOn P img) : pixOn P (apply_custom_colors img settings) := by
  simp only [apply_custom_colors]
  refine pixOn_foldl _ (fun im p hp => ?_) _ _ h
  exact pixOn_putPixel (h255 _ _ _) hp

theorem apply_custom_dims (img : Img) (settings : DitherSettings) :
    (apply_custom_colors img settings).width = img.width
    ∧ (apply_custom_colors img settings).height = img.height := by
  simp only [apply_custom_colors]
  refine foldl_dims _ (fun im a => ?_) _ _
  exact ⟨rfl, rfl⟩

theorem foldl_put_dims (f : ℕ × ℕ → Pix) (l : List (ℕ × ℕ)) (im : Img) :
    (l.foldl (fun im p => im.putPixel p.1 p.2 (f p)) im).width = im.width
    ∧ (l.foldl (fun im p => im.putPixel p.1 p.2 (f p)) im).height = im.height := by
  refine foldl_dims _ (fun im a => ?_) _ _
  exact ⟨rfl, rfl⟩

theorem pixOn_foldl_put_cover (P : Pix → Prop) (f : ℕ × ℕ → Pix)
    (hf : ∀ p, P (f p)) (w h : ℕ) :
    pixOn P ((rowMajor w h).foldl (fun im p => im.putPixel p.1 p.2 (f p)) (rgbaNew w h)) := by
  intro x y hx hy
  rw [(foldl_put_dims f _ _).1] at hx
  rw [(foldl_put_dims f _ _).2] at hy
  rw [foldl_put_pix]
  rw [if_pos (mem_rowMajor.mpr ⟨show x < w from hx, show y < h from hy⟩)]
  exact hf _

theorem apply_dither_dims (sqrtQ : ℚ → ℚ) (image : Img) (settings : DitherSettings) :
    (apply_dither sqrtQ image settings).width = image.width
    ∧ (apply_dither sqrtQ image settings).height = image.height := by
  simp only [apply_dither]
  split
  · exact ⟨(apply_custom_dims _ _).1.trans ((dims_dispatch sqrtQ settings _).1.trans
      (foldl_put_dims (adjustedGray image settings) _ _).1),
      (apply_custom_dims _ _).2.trans ((dims_dispatch sqrtQ settings _).2.trans
      (foldl_put_dims (adjustedGray image settings) _ _).2)⟩
  · exact ⟨(dims_dispatch sqrtQ settings _).1.trans
      (foldl_put_dims (adjustedGray image settings) _ _).1,
      (dims_dispatch sqrtQ settings _).2.trans
      (foldl_put_dims (adjustedGray image settings) _ _).2⟩

/-- C10: with `custom_black = (0,0,0)` and `custom_white = (255,255,255)`,
every in-bounds pixel of `apply_dither`'s output is an opaque gray
(`r = g = b`, `a = 255`); moreover the alpha channel is 255 for every
settings value, custom colors included. -/
theorem claim_C10 :
    (∀ (sqrtQ : ℚ → ℚ) (image : Img) (settings : DitherSettings),
        settings.custom_black = (0, 0, 0) → settings.custom_white = (255, 255, 255) →
        ∀ x y, x < image.width → y < image.height →
          ((apply_dither sqrtQ image settings).pix x y).r
              = ((apply_dither sqrtQ image settings).pix x y).g
          ∧ ((apply_dither sqrtQ image settings).pix x y).g
              = ((apply_dither sqrtQ image settings).pix x y).b
          ∧ ((apply_dither sqrtQ image settings).pix x y).a = 255)
    ∧ (∀ (sqrtQ : ℚ → ℚ) (image : Img) (settings : DitherSettings),
        ∀ x y, x < image.width → y < image.height →
          ((apply_dither sqrtQ image settings).pix x y).a = 255) := by
  constructor
  · intro sqrtQ image settings hcb hcw x y hx hy
    have hdims := apply_dither_dims sqrtQ image settings
    have hP : pixOn (fun p => p.r = p.g ∧ p.g = p.b ∧ p.a = 255)
        (apply_dither sqrtQ image settings) := by
      simp only [apply_dither]
      rw [if_neg (by simp [hcb, hcw])]
      exact pixOn_dispatch (fun p => p.r = p.g ∧ p.g = p.b ∧ p.a = 255)
        (fun g => ⟨rfl, rfl, rfl⟩) sqrtQ settings _
        (pixOn_foldl_put_cover (fun p => p.r = p.g ∧ p.g = p.b ∧ p.a = 255)
          (adjustedGray image settings) (fun p => ⟨rfl, rfl, rfl⟩) _ _)
    exact hP x y (by rw [hdims.1]; exact hx) (by rw [hdims.2]; exact hy)
  · intro sqrtQ image settings x y hx hy
    have hdims := apply_dither_dims sqrtQ image settings
    have hP : pixOn (fun p => p.a = 255) (apply_dither sqrtQ image settings) := by
      simp only [apply_dither]
      split
      · exact pixOn_apply_custom_colors (fun p => p.a = 255) (fun r g b => rfl) _ _
          (pixOn_dispatch (fun p => p.a = 255) (fun g => rfl) sqrtQ settings _
            (pixOn_foldl_put_cover (fun p => p.a = 255)
              (adjustedGray image settings) (fun p => rfl) _ _))
      · exact pixOn_dispatch (fun p => p.a = 255) (fun g => rfl) sqrtQ settings _
          (pixOn_foldl_put_cover (fun p => p.a = 255)
            (adjustedGray image settings) (fun p => rfl) _ _)
    exact hP x y (by rw [hdims.1]; exact hx) (by rw [hdims.2]; exact hy)

/-- Witness for C10: the invariant evaluated at a concrete image and
settings (default settings for the gray part; explicit custom colors for
the alpha part). -/
theorem claim_C10_witness :
    (((apply_dither sqrtStub grayImg1 ditherDefault).pix 0 0).r
        = ((apply_dither sqrtStub grayImg1 ditherDefault).pix 0 0).g
      ∧ ((apply_dither sqrtStub grayImg1 ditherDefault).pix 0 0).g
        = ((apply_dither sqrtStub grayImg1 ditherDefault).pix 0 0).b
      ∧ ((apply_dither sqrtStub grayImg1 ditherDefault).pix 0 0).a = 255)
    ∧ ((apply_dither sqrtStub grayImg1
        { ditherDefault with custom_black := (10, 20, 30) }).pix 0 0).a = 255 :=
  ⟨claim_C10.1 sqrtStub grayImg1 ditherDefault rfl rfl 0 0 (by decide) (by decide),
   claim_C10.2 sqrtStub grayImg1 _ 0 0 (by decide) (by decide)⟩

/-- C1 (code bug): the specification requires `color_levels < 2` to be
rejected with a descriptive invalid-configuration error before any pixel
processing; `apply_dither` has no error channel at all (it always returns
an image), and for `color_levels = 1` it silently processes every pixel:
`quantize_gray`'s step is `255/0 = +∞`, the product `0 * ∞` is NaN, and
`NaN as u8` is 0, so a 1×1 mid-gray image is processed into an ordinary
all-black opaque image instead of an error. -/
theorem claim_C1 :
    quantize_gray 128 1 = 0
    ∧ (apply_dither sqrtStub grayImg1 levels1Settings).pix 0 0 = ⟨0, 0, 0, 255⟩ := by
  with_unfolding_all decide

/-- C2: Floyd-Steinberg dithering is exactly the specification's
description: scan row-major; per pixel write the quantized value in place,
take `err = old - new`, and add the `7/16, 3/16, 5/16, 1/16` shares of
`err` (the exact rational share, truncated toward zero because pixels store
8-bit integers) to `(x+1,y), (x-1,y+1), (x,y+1), (x+1,y+1)`, clamping each
updated value to `[0,255]` and silently skipping out-of-bounds neighbours. -/
theorem claim_C2 : ∀ (img : Img) (settings : DitherSettings),
    floyd_steinberg_dither img settings = floyd_steinberg_spec img settings := by
  intro img settings
  rfl

/-- C3: a 4×4 all-mid-gray image under Threshold dithering with threshold
127 becomes all pure white; with threshold 129 it becomes all pure black
(alpha 255 throughout). -/
theorem claim_C3 :
    ∀ x : ℕ, x < 4 → ∀ y : ℕ, y < 4 →
      (apply_dither sqrtStub grayImg4 (thresholdSettings 127)).pix x y = ⟨255, 255, 255, 255⟩
      ∧ (apply_dither sqrtStub grayImg4 (thresholdSettings 129)).pix x y = ⟨0, 0, 0, 255⟩ := by
  with_unfolding_all decide

/-- Witness for C3 at the concrete corner pixel. -/
theorem claim_C3_witness :
    (apply_dither sqrtStub grayImg4 (thresholdSettings 127)).pix 0 0 = ⟨255, 255, 255, 255⟩
    ∧ (apply_dither sqrtStub grayImg4 (thresholdSettings 129)).pix 0 0 = ⟨0, 0, 0, 255⟩ :=
  claim_C3 0 (by decide) 0 (by decide)

theorem floorQ_natCast_div (a b : ℕ) : ⌊((a : ℚ) / (b : ℚ))⌋ = ((a / b : ℕ) : ℤ) := by
  have h0 : (0 : ℚ) ≤ (a : ℚ) / (b : ℚ) := by positivity
  rw [← Int.natCast_floor_eq_floor h0, Nat.floor_div_nat, Nat.floor_natCast]

theorem rustRound_intCast (k : ℤ) : rustRound (k : ℚ) = k := by
  unfold rustRound
  split
  · rw [show ((k : ℚ) + 1/2) = (1/2 + (k : ℚ)) by ring, Int.floor_add_int]
    norm_num
  · rw [show (-(k : ℚ) + 1/2) = (1/2 + ((-k : ℤ) : ℚ)) by push_cast; ring,
      Int.floor_add_int]
    norm_num

theorem quantize_gray_eq_nat (v n : ℕ) (h2 : 2 ≤ n) (h255 : n ≤ 255) :
    quantize_gray v n = quantizeNat v n := by
  obtain ⟨m, rfl⟩ := Nat.exists_eq_add_of_le h2
  have hd : (2 + m + 255) % 256 = m + 1 := by omega
  have hsub : 2 + m - 1 = m + 1 := by omega
  simp only [quantize_gray, quantizeNat, hd, hsub]
  have hdq : (0 : ℚ) < ((m + 1 : ℕ) : ℚ) := by positivity
  have harg : (v : ℚ) / (255 / ((m + 1 : ℕ) : ℚ)) + 1/2
      = ((2 * v * (m + 1) + 255 : ℕ) : ℚ) / ((510 : ℕ) : ℚ) := by
    push_cast
    field_simp
    ring
  have hq : rustRound ((v : ℚ) / (255 / ((m + 1 : ℕ) : ℚ)))
      = (((2 * v * (m + 1) + 255) / 510 : ℕ) : ℤ) := by
    rw [rustRound, if_pos (by positivity), harg, floorQ_natCast_div]
  rw [hq]
  have hr : ∀ q : ℕ, ((q : ℤ) : ℚ) * (255 / ((m + 1 : ℕ) : ℚ))
      = ((q * 255 : ℕ) : ℚ) / ((m + 1 : ℕ) : ℚ) := by
    intro q
    have hne : ((m + 1 : ℕ) : ℚ) ≠ 0 := ne_of_gt hdq
    field_simp
  rw [hr]
  simp only [toU8]
  have h0 : (0 : ℚ) ≤ (((2 * v * (m + 1) + 255) / 510 * 255 : ℕ) : ℚ) / ((m + 1 : ℕ) : ℚ) := by
    positivity

  rw [max_eq_right h0]
  simp only [truncQ]
  rw [if_pos h0, floorQ_natCast_div, Int.toNat_natCast]
  omega

set_option maxRecDepth 100000 in
set_option maxHeartbeats 8000000 in
theorem quantizeNat_idem_below :
    ∀ v : ℕ, v < 256 → ∀ n : ℕ, n < 132 → 2 ≤ n →
      quantizeNat (quantizeNat v n) n = quantizeNat v n := by
  decide

theorem quantizeQ_round (k : ℤ) (n : ℕ) (h2 : 2 ≤ n) :
    quantizeQ ((k : ℚ) * (255 / ((n - 1 : ℕ) : ℚ))) n
      = min ((k : ℚ) * (255 / ((n - 1 : ℕ) : ℚ))) 255 := by
  have hdq : (0 : ℚ) < ((n - 1 : ℕ) : ℚ) := by
    have : 0 < n - 1 := by omega
    exact_mod_cast this
  have hs : (255 : ℚ) / ((n - 1 : ℕ) : ℚ) ≠ 0 := by positivity
  simp only [quantizeQ]
  rw [mul_div_assoc, div_self hs, mul_one, rustRound_intCast]

/-- C7 (amended): `quantize_gray` is idempotent for every `v ∈ [0,255]`
when `2 ≤ color_levels ≤ 131`, and the specification's untruncated
rational formula `round(v/step)*step` clamped to 255 is idempotent for
every `levels ≥ 2`; the final truncation of `quantize_gray` to `u8` breaks
idempotence for some levels ≥ 132 (see the counterexample). -/
theorem claim_C7 :
    (∀ v n : ℕ, v ≤ 255 → 2 ≤ n → n ≤ 131 →
      quantize_gray (quantize_gray v n) n = quantize_gray v n)
    ∧ (∀ (v : ℚ) (n : ℕ), 2 ≤ n → quantizeQ (quantizeQ v n) n = quantizeQ v n) := by
  constructor
  · intro v n hv h2 h131
    rw [quantize_gray_eq_nat (quantize_gray v n) n h2 (by omega),
      quantize_gray_eq_nat v n h2 (by omega)]
    exact quantizeNat_idem_below v (by omega) n (by omega) h2
  · intro v n h2
    have hdq : (0 : ℚ) < ((n - 1 : ℕ) : ℚ) := by
      have : 0 < n - 1 := by omega
      exact_mod_cast this
    have hs : (255 : ℚ) / ((n - 1 : ℕ) : ℚ) ≠ 0 := by positivity
    by_cases hle : (rustRound (v / (255 / ((n - 1 : ℕ) : ℚ))) : ℚ)
        * (255 / ((n - 1 : ℕ) : ℚ)) ≤ 255
    · have hQ : quantizeQ v n = (rustRound (v / (255 / ((n - 1 : ℕ) : ℚ))) : ℚ)
          * (255 / ((n - 1 : ℕ) : ℚ)) := by
        simp only [quantizeQ]
        exact min_eq_left hle
      rw [hQ, quantizeQ_round _ n h2, min_eq_left hle]
    · have hQ : quantizeQ v n = 255 := by
        simp only [quantizeQ]
        exact min_eq_right (le_of_not_le hle)
      rw [hQ]
      have hne : ((n - 1 : ℕ) : ℚ) ≠ 0 := ne_of_gt hdq
      have h255 : (255 : ℚ) = (((n - 1 : ℕ) : ℤ) : ℚ) * (255 / ((n - 1 : ℕ) : ℚ)) := by
        have hc : (((n - 1 : ℕ) : ℤ) : ℚ) = ((n - 1 : ℕ) : ℚ) := by
          push_cast
          ring
        rw [hc, mul_comm, div_mul_cancel₀ _ (ne_of_gt hdq)]
      rw [h255, quantizeQ_round _ n h2, ← h255]
      exact min_eq_left le_rfl

/-- Counterexample for C7 as stated: with 132 gray levels the code's
quantization is not idempotent at value 37 (37 ↦ 36 ↦ 35). -/
theorem claim_C7_counterexample :
    quantize_gray 37 132 = 36 ∧ quantize_gray 36 132 = 35
    ∧ quantize_gray (quantize_gray 37 132) 132 ≠ quantize_gray 37 132 := by
  with_unfolding_all decide

/-- Witness for C7: idempotence evaluated at `v = 100`, 3 levels. -/
theorem claim_C7_witness :
    quantize_gray (quantize_gray 100 3) 3 = quantize_gray 100 3
    ∧ quantizeQ (quantizeQ 100 3) 3 = quantizeQ 100 3 :=
  ⟨claim_C7.1 100 3 (by decide) (by decide) (by decide),
   claim_C7.2 100 3 (by decide)⟩

theorem truncQ_natAbs_le (x : ℚ) : (((truncQ x).natAbs : ℕ) : ℚ) ≤ |x| := by
  rw [Int.cast_natAbs]
  unfold truncQ
  split
  · rename_i h
    rw [abs_of_nonneg h, abs_of_nonneg (by exact_mod_cast Int.floor_nonneg.mpr h)]
    exact_mod_cast Int.floor_le x
  · rename_i h
    have hx : x < 0 := not_le.mp h
    have h2 : (0 : ℤ) ≤ ⌊-x⌋ := Int.floor_nonneg.mpr (by linarith)
    rw [abs_of_neg hx]
    push_cast
    rw [abs_neg, abs_of_nonneg (by exact_mod_cast h2)]
    exact_mod_cast Int.floor_le (-x)

theorem kernelShareSum_le_q (err : ℤ) :
    ∀ K : List (ℤ × ℤ × ℚ), (∀ k ∈ K, 0 ≤ k.2.2) →
      ((kernelShareSum K err : ℕ) : ℚ) ≤ |(err : ℚ)| * kernelWeightSum K := by
  intro K
  induction K with
  | nil =>
    intro _
    simp [kernelShareSum, kernelWeightSum]
  | cons k K ih =>
    intro hw
    have h1 := truncQ_natAbs_le ((err : ℚ) * k.2.2)
    rw [abs_mul, abs_of_nonneg (hw k (List.mem_cons_self k K))] at h1
    have h2 := ih (fun k' hk' => hw k' (List.mem_cons_of_mem _ hk'))
    simp only [kernelShareSum, kernelWeightSum, List.map_cons, List.sum_cons] at h2 ⊢
    push_cast
    push_cast at h2
    rw [mul_add]
    exact add_le_add h1 h2

theorem kernelShareSum_le (K : List (ℤ × ℤ × ℚ)) (err : ℤ)
    (hw : ∀ k ∈ K, 0 ≤ k.2.2) (hs : kernelWeightSum K ≤ 1) :
    kernelShareSum K err ≤ err.natAbs := by
  have hfin : ((kernelShareSum K err : ℕ) : ℚ) ≤ |(err : ℚ)| :=
    le_trans (kernelShareSum_le_q err K hw)
      (mul_le_of_le_one_right (abs_nonneg _) hs)
  have habs : ((err.natAbs : ℕ) : ℚ) = |(err : ℚ)| := by
    rw [Int.cast_natAbs, Int.cast_abs]
  rw [← habs] at hfin
  exact_mod_cast hfin

/-- C8 (amended): for every per-pixel quantization error, each of the six
error-diffusion kernels distributes integer shares whose summed magnitudes
never exceed |err|; the Floyd-Steinberg, Jarvis, Stucki, Burkes and Sierra
kernel weights sum to exactly 1, while Atkinson's weights sum to 3/4 (it
deliberately diffuses only three quarters of the error). -/
theorem claim_C8 :
    (∀ err : ℤ,
      kernelShareSum fs_kernel err ≤ err.natAbs
      ∧ kernelShareSum atkinson_kernel err ≤ err.natAbs
      ∧ kernelShareSum jarvis_kernel err ≤ err.natAbs
      ∧ kernelShareSum stucki_kernel err ≤ err.natAbs
      ∧ kernelShareSum burkes_kernel err ≤ err.natAbs
      ∧ kernelShareSum sierra_kernel err ≤ err.natAbs)
    ∧ kernelWeightSum fs_kernel = 1
    ∧ kernelWeightSum atkinson_kernel = 3/4
    ∧ kernelWeightSum jarvis_kernel = 1
    ∧ kernelWeightSum stucki_kernel = 1
    ∧ kernelWeightSum burkes_kernel = 1
    ∧ kernelWeightSum sierra_kernel = 1 := by
  refine ⟨fun err => ⟨?_, ?_, ?_, ?_, ?_, ?_⟩, ?_, ?_, ?_, ?_, ?_, ?_⟩
  · refine kernelShareSum_le _ _ (fun k hk => ?_) (by norm_num [kernelWeightSum, fs_kernel])
    simp only [fs_kernel, List.mem_cons, List.not_mem_nil, or_false] at hk
    rcases hk with rfl | rfl | rfl | rfl <;> norm_num
  · refine kernelShareSum_le _ _ (fun k hk => ?_) (by norm_num [kernelWeightSum, atkinson_kernel])
    simp only [atkinson_kernel, List.mem_cons, List.not_mem_nil, or_false] at hk
    rcases hk with rfl | rfl | rfl | rfl | rfl | rfl <;> norm_num
  · refine kernelShareSum_le _ _ (fun k hk => ?_) (by norm_num [kernelWeightSum, jarvis_kernel])
    simp only [jarvis_kernel, List.mem_cons, List.not_mem_nil, or_false] at hk
    rcases hk with rfl | rfl | rfl | rfl | rfl | rfl | rfl | rfl | rfl | rfl | rfl | rfl <;> norm_num
  · refine kernelShareSum_le _ _ (fun k hk => ?_) (by norm_num [kernelWeightSum, stucki_kernel])
    simp only [stucki_kernel, List.mem_cons, List.not_mem_nil, or_false] at hk
    rcases hk with rfl | rfl | rfl | rfl | rfl | rfl | rfl | rfl | rfl | rfl | rfl | rfl <;> norm_num
  · refine kernelShareSum_le _ _ (fun k hk => ?_) (by norm_num [kernelWeightSum, burkes_kernel])
    simp only [burkes_kernel, List.mem_cons, List.not_mem_nil, or_false] at hk
    rcases hk with rfl | rfl | rfl | rfl | rfl | rfl | rfl <;> norm_num
  · refine kernelShareSum_le _ _ (fun k hk => ?_) (by norm_num [kernelWeightSum, sierra_kernel])
    simp only [sierra_kernel, List.mem_cons, List.not_mem_nil, or_false] at hk
    rcases hk with rfl | rfl | rfl | rfl | rfl | rfl | rfl | rfl | rfl | rfl <;> norm_num
  · norm_num [kernelWeightSum, fs_kernel]
  · norm_num [kernelWeightSum, atkinson_kernel]
  · norm_num [kernelWeightSum, jarvis_kernel]
  · norm_num [kernelWeightSum, stucki_kernel]
  · norm_num [kernelWeightSum, burkes_kernel]
  · norm_num [kernelWeightSum, sierra_kernel]

/-- Counterexample for C8 as stated: the claim asserts every kernel's
weights sum to 1, but the Atkinson kernel's weights sum to 3/4. -/
theorem claim_C8_counterexample :
    kernelWeightSum atkinson_kernel = 3/4 ∧ kernelWeightSum atkinson_kernel ≠ 1 := by
  constructor <;> norm_num [kernelWeightSum, atkinson_kernel]

theorem crt_sample_eq_fisheye (img : Img) (x y : ℚ) (w h : ℕ) :
    Crt.sample_bilinear img x y w h = Fisheye.sample_bilinear img x y w h := rfl

theorem toU8_qclamp_natCast (c : ℕ) (hc : c ≤ 255) : toU8 (qclamp (c : ℚ) 0 255) = c := by
  have hcq : ((c : ℕ) : ℚ) ≤ 255 := by exact_mod_cast hc
  have h0 : (0 : ℚ) ≤ (c : ℚ) := by positivity
  unfold qclamp toU8 truncQ
  rw [min_eq_right hcq, max_eq_right h0, max_eq_right h0, if_pos h0,
    Int.floor_natCast, Int.toNat_natCast, min_eq_right hc]

theorem sample_bilinear_exact (img : Img) (w h i j : ℕ)
    (hi : i < w - 1) (hj : j < h - 1) (hv : validPix (img.pix i j)) :
    Fisheye.sample_bilinear img (i : ℚ) (j : ℚ) w h = img.pix i j := by
  obtain ⟨hr, hg, hb, ha⟩ := hv
  have hga : ¬((i : ℚ) < 0 ∨ (j : ℚ) < 0
      ∨ ((w - 1 : ℕ) : ℚ) ≤ (i : ℚ) ∨ ((h - 1 : ℕ) : ℚ) ≤ (j : ℚ)) := by
    push_neg
    refine ⟨by positivity, by positivity, ?_, ?_⟩
    · exact_mod_cast hi
    · exact_mod_cast hj
  simp only [Fisheye.sample_bilinear]
  rw [if_neg hga]
  simp only [Int.floor_natCast, Int.toNat_natCast, sub_self, mul_zero, mul_one,
    add_zero, sub_zero, zero_add]
  rw [toU8_qclamp_natCast _ hr, toU8_qclamp_natCast _ hg,
    toU8_qclamp_natCast _ hb, toU8_qclamp_natCast _ ha]

/-- C4: both copies of `sample_bilinear` (src/fisheyeconverter.rs and
src/crtconverter.rs) return fully-transparent black for every coordinate
outside `[0, width-1) × [0, height-1)`, and return exactly the source pixel
at every integer coordinate strictly inside those bounds. -/
theorem claim_C4 :
    (∀ (img : Img) (x y : ℚ), 1 ≤ img.width → 1 ≤ img.height →
      ¬(0 ≤ x ∧ x < ((img.width - 1 : ℕ) : ℚ) ∧ 0 ≤ y ∧ y < ((img.height - 1 : ℕ) : ℚ)) →
      Fisheye.sample_bilinear img x y img.width img.height = ⟨0, 0, 0, 0⟩
      ∧ Crt.sample_bilinear img x y img.width img.height = ⟨0, 0, 0, 0⟩)
    ∧ (∀ (img : Img) (i j : ℕ), validPix (img.pix i j) →
      i < img.width - 1 → j < img.height - 1 →
      Fisheye.sample_bilinear img (i : ℚ) (j : ℚ) img.width img.height = img.pix i j
      ∧ Crt.sample_bilinear img (i : ℚ) (j : ℚ) img.width img.height = img.pix i j) := by
  constructor
  · intro img x y _ _ h
    have hcond : x < 0 ∨ y < 0 ∨ ((img.width - 1 : ℕ) : ℚ) ≤ x
        ∨ ((img.height - 1 : ℕ) : ℚ) ≤ y := by
      by_contra hc
      push_neg at hc
      exact h ⟨hc.1, hc.2.2.1, hc.2.1, hc.2.2.2⟩
    constructor
    · simp only [Fisheye.sample_bilinear]
      rw [if_pos hcond]
    · simp only [Crt.sample_bilinear]
      rw [if_pos hcond]
  · intro img i j hv hi hj
    exact ⟨sample_bilinear_exact img img.width img.height i j hi hj hv,
      (crt_sample_eq_fisheye img i j img.width img.height).trans
        (sample_bilinear_exact img img.width img.height i j hi hj hv)⟩

/-- Witness for C4: a concrete out-of-bounds coordinate returns transparent
black and a concrete interior integer coordinate returns the source pixel,
on a concrete 2×2 image, for both sampler copies. -/
theorem claim_C4_witness :
    (Fisheye.sample_bilinear checker2 5 0 2 2 = ⟨0, 0, 0, 0⟩
      ∧ Crt.sample_bilinear checker2 5 0 2 2 = ⟨0, 0, 0, 0⟩)
    ∧ (Fisheye.sample_bilinear checker2 0 0 2 2 = checker2.pix 0 0
      ∧ Crt.sample_bilinear checker2 0 0 2 2 = checker2.pix 0 0) :=
  ⟨claim_C4.1 checker2 5 0 (by decide) (by decide) (by with_unfolding_all decide),
   claim_C4.2 checker2 0 0 (by with_unfolding_all decide) (by decide) (by decide)⟩

/-- C6 (amended): with `detail_level = Custom(2)` on a 2×1 original, the
requested character width 2 is raised to the hard floor of 10 and the
derived height (`⌊2 · (1/2) · 0.5⌋ = 0`) to the hard floor of 5, so - for
any resampler model and any `powf` model - the output is a 5-row,
10-column grid: the colored grid has 5 rows of 10 cells, the text has 55
characters (50 glyphs plus 5 newlines), and text and grid are positionally
consistent (the text is exactly the grid's glyph rows, each followed by a
newline).  It is not a 2-character single-row string. -/
theorem claim_C6 (resize : Img → ℕ → ℕ → Img) (pw : ℚ → ℚ → ℚ)
    (image : Img) (s : AsciiSettings) (hdl : s.detail_level = .Custom 2) :
    (convert_image_to_ascii resize pw image s (2, 1)).colored_ascii.length = 5
    ∧ (∀ row ∈ (convert_image_to_ascii resize pw image s (2, 1)).colored_ascii,
        row.length = 10)
    ∧ (convert_image_to_ascii resize pw image s (2, 1)).ascii_art.length = 55
    ∧ (convert_image_to_ascii resize pw image s (2, 1)).ascii_art
      = ((convert_image_to_ascii resize pw image s (2, 1)).colored_ascii.map
          (fun row => row.map Prod.snd ++ ['\n'])).flatten := by
  have hlen : (convert_image_to_ascii resize pw image s (2, 1)).colored_ascii.length = 5 := by
    simp only [convert_image_to_ascii, hdl, List.length_map, List.length_range]
    with_unfolding_all decide
  have hrows : ∀ row ∈ (convert_image_to_ascii resize pw image s (2, 1)).colored_ascii,
      row.length = 10 := by
    intro row hrow
    simp only [convert_image_to_ascii, hdl, List.mem_map] at hrow
    rcases hrow with ⟨y, hy, rfl⟩
    simp only [List.length_map, List.length_range]
    with_unfolding_all decide
  refine ⟨hlen, hrows, ?_, rfl⟩
  have hart : (convert_image_to_ascii resize pw image s (2, 1)).ascii_art
      = ((convert_image_to_ascii resize pw image s (2, 1)).colored_ascii.map
        (fun row => row.map Prod.snd ++ ['\n'])).flatten := rfl
  rw [hart, List.length_flatten, List.map_map]
  have hmap : ((convert_image_to_ascii resize pw image s (2, 1)).colored_ascii.map
      (List.length ∘ fun row => row.map Prod.snd ++ ['\n']))
      = (convert_image_to_ascii resize pw image s (2, 1)).colored_ascii.map
        (fun _ => 11) := by
    refine List.map_congr_left ?_
    intro r hr
    simp [Function.comp, hrows r hr]
  rw [hmap, List.map_const', List.sum_replicate, hlen]
  norm_num

/-- Counterexample for C6 as stated: with the claim's exact settings the
output grid has 5 rows, not a single row (so in particular the text is not
a 2-character single-row string). -/
theorem claim_C6_counterexample :
    (convert_image_to_ascii resizeStub powStub asciiImg2x1 asciiC6Settings
        (2, 1)).colored_ascii.length = 5
    ∧ (convert_image_to_ascii resizeStub powStub asciiImg2x1 asciiC6Settings
        (2, 1)).colored_ascii.length ≠ 1 := by
  with_unfolding_all decide

/-- Witness for C6: the amended statement evaluated at concrete stand-ins. -/
theorem claim_C6_witness :
    (convert_image_to_ascii resizeStub powStub asciiImg2x1 asciiC6Settings
        (2, 1)).colored_ascii.length = 5
    ∧ (∀ row ∈ (convert_image_to_ascii resizeStub powStub asciiImg2x1 asciiC6Settings
        (2, 1)).colored_ascii, row.length = 10)
    ∧ (convert_image_to_ascii resizeStub powStub asciiImg2x1 asciiC6Settings
        (2, 1)).ascii_art.length = 55
    ∧ (convert_image_to_ascii resizeStub powStub asciiImg2x1 asciiC6Settings
        (2, 1)).ascii_art
      = ((convert_image_to_ascii resizeStub powStub asciiImg2x1 asciiC6Settings
          (2, 1)).colored_ascii.map (fun row => row.map Prod.snd ++ ['\n'])).flatten :=
  claim_C6 resizeStub powStub asciiImg2x1 asciiC6Settings rfl

theorem truncQ_eq_zero {q : ℚ} (h1 : -1 < q) (h2 : q < 1) : truncQ q = 0 := by
  unfold truncQ
  split
  · rename_i h
    exact Int.floor_eq_zero_iff.mpr ⟨h, h2⟩
  · rename_i h
    have : ⌊-q⌋ = 0 := Int.floor_eq_zero_iff.mpr ⟨by linarith [not_le.mp h], by linarith⟩
    omega

theorem fmodQ_small {a c : ℚ} (hc : 0 < c) (h1 : -c < a) (h2 : a < c) : fmodQ a c = a := by
  unfold fmodQ
  rw [truncQ_eq_zero (by rw [lt_div_iff hc]; linarith) (by rw [div_lt_one hc]; linarith)]
  push_cast
  ring

theorem fmodQ_two (k : ℤ) {a : ℚ} (h0 : 0 ≤ a) (h1 : 2 * (k : ℚ) ≤ a) (h2 : a < 2 * ((k : ℚ) + 1)) :
    fmodQ a 2 = a - 2 * (k : ℚ) := by
  unfold fmodQ truncQ
  rw [if_pos (by positivity : (0:ℚ) ≤ a / 2)]
  rw [show ⌊a / 2⌋ = k from Int.floor_eq_iff.mpr
    ⟨by rw [le_div_iff (by norm_num : (0:ℚ) < 2)]; linarith,
     by rw [div_lt_iff (by norm_num : (0:ℚ) < 2)]; push_cast; linarith⟩]

set_option maxHeartbeats 1000000 in
/-- C9: in the exact rational model of the `f32` code, `hsv_to_rgb` and
`rgb_to_hsv` are exactly mutual inverses on every RGB triple with channels
in `[0,1]` (exactness implies the claim's "within a small epsilon"), in
particular at pure black, pure white, the saturated primaries, the gray
case `s = 0` where the hue is conventionally 0, and the wraparound of
negative hue into `[300, 360)`. -/
theorem claim_C9 (r g b : ℚ) (hr0 : 0 ≤ r) (hr1 : r ≤ 1) (hg0 : 0 ≤ g) (hg1 : g ≤ 1)
    (hb0 : 0 ≤ b) (hb1 : b ≤ 1) :
    hsv_to_rgb (rgb_to_hsv r g b).1 (rgb_to_hsv r g b).2.1 (rgb_to_hsv r g b).2.2
      = (r, g, b) := by
  have hm0 : 0 ≤ min (min r g) b := le_min (le_min hr0 hg0) hb0
  have hrM : r ≤ max (max r g) b := le_trans (le_max_left r g) (le_max_left _ _)
  have hgM : g ≤ max (max r g) b := le_trans (le_max_right r g) (le_max_left _ _)
  have hbM : b ≤ max (max r g) b := le_max_right _ _
  have hmr : min (min r g) b ≤ r := le_trans (min_le_left _ _) (min_le_left _ _)
  have hmg : min (min r g) b ≤ g := le_trans (min_le_left _ _) (min_le_right _ _)
  have hmb : min (min r g) b ≤ b := min_le_right _ _
  by_cases hdel : max (max r g) b - min (min r g) b = 0
  · -- gray: r = g = b
    have hrg : r = g := le_antisymm (by linarith) (by linarith)
    have hrb : r = b := le_antisymm (by linarith) (by linarith)
    subst hrg hrb
    simp [rgb_to_hsv, hsv_to_rgb, fmodQ, truncQ]
  · have hδ : 0 < max (max r g) b - min (min r g) b :=
      lt_of_le_of_ne (by linarith) (Ne.symm hdel)
    have hM0 : 0 < max (max r g) b := by linarith
    by_cases hMr : max (max r g) b = r
    · rw [hMr] at hgM hbM
      by_cases hgb : b ≤ g
      · have hmin : min (min r g) b = b := by rw [min_eq_right hgM, min_eq_right hgb]
        rw [hMr] at hdel hδ hM0
        rw [hmin] at hdel hδ
        have hrne : r ≠ 0 := ne_of_gt hM0
        by_cases hlt : g < r
        · -- A1a: 0 ≤ t < 1, branch h < 60
          have ht0 : (0 : ℚ) ≤ (g - b) / (r - b) := div_nonneg (by linarith) (le_of_lt hδ)
          have ht1 : (g - b) / (r - b) < 1 := (div_lt_one hδ).mpr (by linarith)
          simp only [rgb_to_hsv, hsv_to_rgb]
          rw [hMr, hmin]
          rw [if_neg hdel, if_pos rfl]
          rw [fmodQ_small (by norm_num) (by linarith) (by linarith)]
          rw [if_neg (not_lt.mpr (by positivity : (0:ℚ) ≤ 60 * ((g - b) / (r - b))))]
          rw [if_neg (ne_of_gt hM0)]
          rw [if_pos (by linarith : 60 * ((g - b) / (r - b)) < 60)]
          rw [show (60:ℚ) * ((g - b) / (r - b)) / 60 = (g - b) / (r - b) from by ring]
          rw [fmodQ_small (by norm_num) (by linarith) (by linarith)]
          rw [abs_of_nonpos (by linarith : (g - b) / (r - b) - 1 ≤ 0)]
          refine Prod.ext ?_ (Prod.ext ?_ ?_)
          · field_simp
          · field_simp
          · field_simp
        · -- A1b: t = 1 (g = r), h = 60, branch h < 120
          have hgr : g = r := le_antisymm hgM (not_lt.mp hlt)
          have ht : (g - b) / (r - b) = 1 := by rw [hgr]; field_simp
          simp only [rgb_to_hsv, hsv_to_rgb]
          rw [hMr, hmin]
          rw [if_neg hdel, if_pos rfl]
          rw [fmodQ_small (by norm_num) (by rw [ht]; norm_num) (by rw [ht]; norm_num)]
          rw [ht]
          rw [if_neg (by norm_num : ¬((60:ℚ) * 1 < 0))]
          rw [if_neg (ne_of_gt hM0)]
          rw [if_neg (by norm_num : ¬((60:ℚ) * 1 < 60))]
          rw [if_pos (by norm_num : (60:ℚ) * 1 < 120)]
          rw [show (60:ℚ) * 1 / 60 = 1 from by norm_num]
          rw [fmodQ_small (by norm_num) (by norm_num) (by norm_num)]
          rw [show |(1:ℚ) - 1| = 0 from by norm_num]
          refine Prod.ext ?_ (Prod.ext ?_ ?_)
          · field_simp
          · rw [hgr]
            field_simp
          · field_simp
      · -- A2: g < b, t < 0, wrap, branch h ∈ (300, 360), last branch
        push_neg at hgb
        have hmin : min (min r g) b = g := by
          rw [min_eq_right hgM, min_eq_left (le_of_lt hgb)]
        rw [hMr] at hdel hδ hM0
        rw [hmin] at hdel hδ
        have hrne : r ≠ 0 := ne_of_gt hM0
        have hbr : b ≤ r := hbM
        have htm1 : -1 ≤ (g - b) / (r - g) := by
          rw [le_div_iff hδ]
          linarith
        have ht0 : (g - b) / (r - g) < 0 := div_neg_of_neg_of_pos (by linarith) hδ
        simp only [rgb_to_hsv, hsv_to_rgb]
        rw [hMr, hmin]
        rw [if_neg hdel, if_pos rfl]
        rw [fmodQ_small (by norm_num) (by linarith) (by linarith)]
        rw [if_pos (by linarith : 60 * ((g - b) / (r - g)) < 0)]
        rw [if_neg (ne_of_gt hM0)]
        rw [if_neg (by linarith : ¬(60 * ((g - b) / (r - g)) + 360 < 60))]
        rw [if_neg (by linarith : ¬(60 * ((g - b) / (r - g)) + 360 < 120))]
        rw [if_neg (by linarith : ¬(60 * ((g - b) / (r - g)) + 360 < 180))]
        rw [if_neg (by linarith : ¬(60 * ((g - b) / (r - g)) + 360 < 240))]
        rw [if_neg (by linarith : ¬(60 * ((g - b) / (r - g)) + 360 < 300))]
        rw [show (60 * ((g - b) / (r - g)) + 360) / 60 = (g - b) / (r - g) + 6 from by ring]
        rw [fmodQ_two 2 (by linarith) (by linarith) (by linarith)]
        rw [abs_of_nonneg (by linarith : (0:ℚ) ≤ (g - b) / (r - g) + 6 - 2 * (2:ℤ) - 1)]
        refine Prod.ext ?_ (Prod.ext ?_ ?_)
        · field_simp
        · field_simp
        · push_cast
          field_simp
          ring
    · by_cases hMg : max (max r g) b = g
      · -- B: max = g
        rw [hMg] at hrM hbM
        have hrg : r < g := lt_of_le_of_ne hrM (fun h => hMr (hMg.trans h.symm))
        by_cases hbr : b < r
        · -- B1: t < 0, h in [60, 120)
          have hmin : min (min r g) b = b := by
            rw [min_eq_left (le_of_lt hrg), min_eq_right (le_of_lt hbr)]
          rw [hMg] at hdel hδ hM0
          rw [hmin] at hdel hδ
          have hgne : g ≠ 0 := ne_of_gt hM0
          have htm1 : -1 ≤ (b - r) / (g - b) := by
            rw [le_div_iff hδ]
            linarith
          have ht0 : (b - r) / (g - b) < 0 := div_neg_of_neg_of_pos (by linarith) hδ
          simp only [rgb_to_hsv, hsv_to_rgb]
          rw [hMg, hmin]
          rw [if_neg hdel, if_neg (fun h => hMr (hMg.trans h)), if_pos rfl]
          rw [if_neg (by linarith : ¬(60 * ((b - r) / (g - b) + 2) < 0))]
          rw [if_neg (ne_of_gt hM0)]
          rw [if_neg (by linarith : ¬(60 * ((b - r) / (g - b) + 2) < 60))]
          rw [if_pos (by linarith : 60 * ((b - r) / (g - b) + 2) < 120)]
          rw [show (60 * ((b - r) / (g - b) + 2)) / 60 = (b - r) / (g - b) + 2 from by ring]
          rw [fmodQ_small (by norm_num) (by linarith) (by linarith)]
          rw [abs_of_nonneg (by linarith : (0:ℚ) ≤ (b - r) / (g - b) + 2 - 1)]
          refine Prod.ext ?_ (Prod.ext ?_ ?_)
          · field_simp
            ring
          · field_simp
          · field_simp
        · push_neg at hbr
          by_cases hbg : b < g
          · -- B2: 0 ≤ t < 1, h in [120, 180)
            have hmin : min (min r g) b = r := by
              rw [min_eq_left (le_of_lt hrg), min_eq_left hbr]
            rw [hMg] at hdel hδ hM0
            rw [hmin] at hdel hδ
            have hgne : g ≠ 0 := ne_of_gt hM0
            have ht0 : (0:ℚ) ≤ (b - r) / (g - r) := div_nonneg (by linarith) (le_of_lt hδ)
            have ht1 : (b - r) / (g - r) < 1 := (div_lt_one hδ).mpr (by linarith)
            simp only [rgb_to_hsv, hsv_to_rgb]
            rw [hMg, hmin]
            rw [if_neg hdel, if_neg (fun h => hMr (hMg.trans h)), if_pos rfl]
            rw [if_neg (by linarith : ¬(60 * ((b - r) / (g - r) + 2) < 0))]
            rw [if_neg (ne_of_gt hM0)]
            rw [if_neg (by linarith : ¬(60 * ((b - r) / (g - r) + 2) < 60))]
            rw [if_neg (by linarith : ¬(60 * ((b - r) / (g - r) + 2) < 120))]
            rw [if_pos (by linarith : 60 * ((b - r) / (g - r) + 2) < 180)]
            rw [show (60 * ((b - r) / (g - r) + 2)) / 60 = (b - r) / (g - r) + 2 from by ring]
            rw [fmodQ_two 1 (by linarith) (by linarith) (by linarith)]
            rw [abs_of_nonpos (by push_cast; linarith :
              (b - r) / (g - r) + 2 - 2 * ((1:ℤ):ℚ) - 1 ≤ 0)]
            refine Prod.ext ?_ (Prod.ext ?_ ?_)
            · field_simp
            · field_simp
            · push_cast
              field_simp
              ring
          · -- B3: b = g, t = 1, h = 180
            push_neg at hbg
            have hbg' : b = g := le_antisymm hbM hbg
            have hmin : min (min r g) b = r := by
              rw [min_eq_left (le_of_lt hrg), min_eq_left hbr]
            rw [hMg] at hdel hδ hM0
            rw [hmin] at hdel hδ
            have hgne : g ≠ 0 := ne_of_gt hM0
            have ht : (b - r) / (g - r) = 1 := by rw [hbg']; field_simp
            simp only [rgb_to_hsv, hsv_to_rgb]
            rw [hMg, hmin]
            rw [if_neg hdel, if_neg (fun h => hMr (hMg.trans h)), if_pos rfl]
            rw [ht]
            rw [if_neg (by norm_num : ¬((60:ℚ) * (1 + 2) < 0))]
            rw [if_neg (ne_of_gt hM0)]
            rw [if_neg (by norm_num : ¬((60:ℚ) * (1 + 2) < 60))]
            rw [if_neg (by norm_num : ¬((60:ℚ) * (1 + 2) < 120))]
            rw [if_neg (by norm_num : ¬((60:ℚ) * (1 + 2) < 180))]
            rw [if_pos (by norm_num : (60:ℚ) * (1 + 2) < 240)]
            rw [show (60:ℚ) * (1 + 2) / 60 = 3 from by norm_num]
            rw [fmodQ_two 1 (by norm_num) (by push_cast; norm_num) (by push_cast; norm_num)]
            rw [show |(3:ℚ) - 2 * ((1:ℤ):ℚ) - 1| = 0 from by push_cast; norm_num]
            refine Prod.ext ?_ (Prod.ext ?_ ?_)
            · field_simp
            · field_simp
            · rw [hbg']
              field_simp
      · -- C: max = b
        have hMb : max (max r g) b = b := by
          rcases max_choice (max r g) b with h | h
          · rcases max_choice r g with h2 | h2
            · exact absurd (h.trans h2) hMr
            · exact absurd (h.trans h2) hMg
          · exact h
        rw [hMb] at hrM hgM
        have hrb : r < b := lt_of_le_of_ne hrM (fun h => hMr (hMb.trans h.symm))
        have hgb2 : g < b := lt_of_le_of_ne hgM (fun h => hMg (hMb.trans h.symm))
        by_cases hrg : r < g
        · -- C1: t < 0, h in [180, 240)
          have hmin : min (min r g) b = r := by
            rw [min_eq_left (le_of_lt hrg), min_eq_left (le_of_lt hrb)]
          rw [hMb] at hdel hδ hM0
          rw [hmin] at hdel hδ
          have hbne : b ≠ 0 := ne_of_gt hM0
          have htm1 : -1 ≤ (r - g) / (b - r) := by
            rw [le_div_iff hδ]
            linarith
          have ht0 : (r - g) / (b - r) < 0 := div_neg_of_neg_of_pos (by linarith) hδ
          simp only [rgb_to_hsv, hsv_to_rgb]
          rw [hMb, hmin]
          rw [if_neg hdel, if_neg (fun h => hMr (hMb.trans h)),
            if_neg (fun h => hMg (hMb.trans h))]
          rw [if_neg (by linarith : ¬(60 * ((r - g) / (b - r) + 4) < 0))]
          rw [if_neg (ne_of_gt hM0)]
          rw [if_neg (by linarith : ¬(60 * ((r - g) / (b - r) + 4) < 60))]
          rw [if_neg (by linarith : ¬(60 * ((r - g) / (b - r) + 4) < 120))]
          rw [if_neg (by linarith : ¬(60 * ((r - g) / (b - r) + 4) < 180))]
          rw [if_pos (by linarith : 60 * ((r - g) / (b - r) + 4) < 240)]
          rw [show (60 * ((r - g) / (b - r) + 4)) / 60 = (r - g) / (b - r) + 4 from by ring]
          rw [fmodQ_two 1 (by linarith) (by push_cast; linarith) (by push_cast; linarith)]
          rw [abs_of_nonneg (by push_cast; linarith :
            (0:ℚ) ≤ (r - g) / (b - r) + 4 - 2 * ((1:ℤ):ℚ) - 1)]
          refine Prod.ext ?_ (Prod.ext ?_ ?_)
          · field_simp
          · push_cast
            field_simp
            ring
          · field_simp
        · -- C2: 0 ≤ t < 1, h in [240, 300)
          push_neg at hrg
          have hmin : min (min r g) b = g := by
            rw [min_eq_right hrg, min_eq_left (le_of_lt hgb2)]
          rw [hMb] at hdel hδ hM0
          rw [hmin] at hdel hδ
          have hbne : b ≠ 0 := ne_of_gt hM0
          have ht0 : (0:ℚ) ≤ (r - g) / (b - g) := div_nonneg (by linarith) (le_of_lt hδ)
          have ht1 : (r - g) / (b - g) < 1 := (div_lt_one hδ).mpr (by linarith)
          simp only [rgb_to_hsv, hsv_to_rgb]
          rw [hMb, hmin]
          rw [if_neg hdel, if_neg (fun h => hMr (hMb.trans h)),
            if_neg (fun h => hMg (hMb.trans h))]
          rw [if_neg (by linarith : ¬(60 * ((r - g) / (b - g) + 4) < 0))]
          rw [if_neg (ne_of_gt hM0)]
          rw [if_neg (by linarith : ¬(60 * ((r - g) / (b - g) + 4) < 60))]
          rw [if_neg (by linarith : ¬(60 * ((r - g) / (b - g) + 4) < 120))]
          rw [if_neg (by linarith : ¬(60 * ((r - g) / (b - g) + 4) < 180))]
          rw [if_neg (by linarith : ¬(60 * ((r - g) / (b - g) + 4) < 240))]
          rw [if_pos (by linarith : 60 * ((r - g) / (b - g) + 4) < 300)]
          rw [show (60 * ((r - g) / (b - g) + 4)) / 60 = (r - g) / (b - g) + 4 from by ring]
          rw [fmodQ_two 2 (by linarith) (by push_cast; linarith) (by push_cast; linarith)]
          rw [abs_of_nonpos (by push_cast; linarith :
            (r - g) / (b - g) + 4 - 2 * ((2:ℤ):ℚ) - 1 ≤ 0)]
          refine Prod.ext ?_ (Prod.ext ?_ ?_)
          · push_cast
            field_simp
            ring
          · field_simp
          · field_simp

/-- Witness for C9: the round trip evaluated at the saturated red primary. -/
theorem claim_C9_witness :
    hsv_to_rgb (rgb_to_hsv 1 0 0).1 (rgb_to_hsv 1 0 0).2.1 (rgb_to_hsv 1 0 0).2.2
      = (1, 0, 0) :=
  claim_C9 1 0 0 (by norm_num) (by norm_num) (by norm_num) (by norm_num)
    (by norm_num) (by norm_num)
